import Mathlib

/-!
Verification of the statement-parsing engine of the personal-expenses
application (`personal_expenses_app`).

The development is a shallow embedding of the Python sources under
`src/personal_expenses_app/`:

* `infrastructure/banamex_file_loader.py`    (`BanamexFileLoader`)
* `infrastructure/chase_file_loader.py`      (`ChaseFileLoader`)
* `infrastructure/citi_file_loader.py`       (`CitiFileLoader`)
* `infrastructure/wellsfargo_file_loader.py` (`WellsfargoFileLoader`)
* `infrastructure/file_persistence.py`       (`FilePersistence`)

Documents are modelled as the list of per-page extracted texts (what
`pdfplumber`'s `page.extract_text()` returns), so a loader takes the
filename (used only for the `-<month>-<year>` pattern) and the page texts.
Python floats are modelled as exact rationals (`ℚ`); `round(x, 2)` is
modelled as exact round-half-to-even at two decimals.  Lines are processed
as `List Char`; the handful of regular expressions appearing in the
sources are implemented as dedicated character-level matchers that follow
the Python `re` semantics of each concrete pattern.

Recursions that are not structural on a list argument take an explicit
fuel argument, always instantiated with a sufficient bound, so that every
definition evaluates by `decide` / `rfl`.
-/

/- Batteries marks the `Rat` arithmetic operations `@[irreducible]`,
which blocks `decide` on concrete runs of the embedding; restore the
default reducibility so the kernel can evaluate them. -/
set_option allowUnsafeReducibility true in
attribute [semireducible] Rat.mul Rat.inv Rat.add Rat.sub Rat.div Rat.blt Rat.neg
  Rat.ofScientific

namespace PExp

/-! ## Character-level utilities (Python `str` semantics) -/

/-- Python whitespace (`str.strip`, regex `\s`): space, tab, newline,
carriage return, vertical tab, form feed. -/
def isWs (c : Char) : Bool :=
  c = ' ' || c = '\t' || c = '\n' || c = '\r' || c = '\x0b' || c = '\x0c'

def isDigitC (c : Char) : Bool := '0' ≤ c && c ≤ '9'

/-- Character class `[\d,]` used by the amount regexes. -/
def isDigitComma (c : Char) : Bool := isDigitC c || c = ','

/-- `str.isupper` on a single character, for the alphabet appearing in the
statements (ASCII plus the accented Spanish letters). -/
def pyIsUpperChar (c : Char) : Bool :=
  ('A' ≤ c && c ≤ 'Z') || c = 'Á' || c = 'É' || c = 'Í' || c = 'Ó' || c = 'Ú' || c = 'Ñ' || c = 'Ü'

/-- `str.lower` on one character (ASCII plus the accented letters used by
the Banamex/Citi statements). -/
def lowerChar (c : Char) : Char :=
  if 'A' ≤ c && c ≤ 'Z' then Char.ofNat (c.toNat + 32)
  else if c = 'Á' then 'á' else if c = 'É' then 'é' else if c = 'Í' then 'í'
  else if c = 'Ó' then 'ó' else if c = 'Ú' then 'ú' else if c = 'Ñ' then 'ñ'
  else if c = 'Ü' then 'ü' else c

/-- `str.upper` on one character (same alphabet as `lowerChar`). -/
def upperChar (c : Char) : Char :=
  if 'a' ≤ c && c ≤ 'z' then Char.ofNat (c.toNat - 32)
  else if c = 'á' then 'Á' else if c = 'é' then 'É' else if c = 'í' then 'Í'
  else if c = 'ó' then 'Ó' else if c = 'ú' then 'Ú' else if c = 'ñ' then 'Ñ'
  else if c = 'ü' then 'Ü' else c

def pyLower (s : List Char) : List Char := s.map lowerChar

def pyUpper (s : List Char) : List Char := s.map upperChar

/-- Python `str.strip()` (no argument): remove leading and trailing
whitespace. -/
def pyStrip (s : List Char) : List Char :=
  ((s.dropWhile isWs).reverse.dropWhile isWs).reverse

/-- `text.split("\n")`. -/
def splitNL : List Char → List (List Char)
  | [] => [[]]
  | c :: t =>
    if c = '\n' then [] :: splitNL t
    else match splitNL t with
      | [] => [[c]]          -- unreachable: splitNL never returns []
      | w :: ws => (c :: w) :: ws

/-- Python substring test `needle in hay`. -/
def containsSub (needle hay : List Char) : Bool :=
  if needle.isPrefixOf hay then true
  else match hay with
    | [] => false
    | _ :: t => containsSub needle t

/-- Python `hay.startswith(pref)`. -/
def startsWith (pref hay : List Char) : Bool := pref.isPrefixOf hay

/-- `str.split()` with no argument: split on whitespace runs, dropping
empty pieces (fuel-driven; fuel `≥ length` suffices). -/
def splitWsF : Nat → List Char → List (List Char)
  | 0, _ => []
  | _ + 1, [] => []
  | fuel + 1, c :: t =>
    if isWs c then splitWsF fuel t
    else
      let w := (c :: t).takeWhile (fun a => !isWs a)
      let r := (c :: t).dropWhile (fun a => !isWs a)
      w :: splitWsF fuel r

def splitWs (s : List Char) : List (List Char) := splitWsF s.length s

/-- `" ".join(parts)`. -/
def joinSpace : List (List Char) → List Char
  | [] => []
  | [w] => w
  | w :: ws => w ++ ' ' :: joinSpace ws

/-- `" ".join(s.split())` — collapse whitespace runs to single spaces. -/
def normSpaces (s : List Char) : List Char := joinSpace (splitWs s)

/-- Python `s.replace(old, new, 1)` (first occurrence only; all call
sites use a non-empty `old`, and for empty `old` Python would prepend
`new`, which this definition also does). -/
def replaceFirst (old new : List Char) (s : List Char) : List Char :=
  if old.isPrefixOf s then new ++ s.drop old.length
  else match s with
    | [] => []
    | c :: t => c :: replaceFirst old new t

/-- Python `s.replace(old, new)` (all occurrences; call sites use a
non-empty `old`; fuel `≥ length` suffices). -/
def replaceAllF (old new : List Char) : Nat → List Char → List Char
  | 0, s => s
  | _ + 1, [] => []
  | fuel + 1, c :: t =>
    if old ≠ [] ∧ old.isPrefixOf (c :: t) then
      new ++ replaceAllF old new fuel ((c :: t).drop old.length)
    else c :: replaceAllF old new fuel t

def replaceAll (old new s : List Char) : List Char := replaceAllF old new s.length s

/-! ## Python numeric conversions -/

def digitVal (c : Char) : Nat := c.toNat - '0'.toNat

def digitsToNat (ds : List Char) : Nat := ds.foldl (fun n c => n * 10 + digitVal c) 0

/-- `int(s)` for a non-empty all-digit string (the only shapes the code
feeds to `int`); other inputs give `none`. -/
def pyIntNat (s : List Char) : Option Nat :=
  let t := pyStrip s
  if t ≠ [] ∧ t.all isDigitC then some (digitsToNat t) else none

/-- Python `float(s)` restricted to the decimal forms (no exponent) the
amount tokens can take: optional sign, then `digits`, `digits.digits`,
`digits.` or `.digits`.  Returns `none` exactly where Python `float`
raises `ValueError` (e.g. an interior space). -/
def pyFloatOpt (s : List Char) : Option ℚ :=
  let t0 := pyStrip s
  let sign : ℚ := if t0.headD ' ' = '-' then -1 else 1
  let t := if t0.headD ' ' = '-' ∨ t0.headD ' ' = '+' then t0.tail else t0
  let ip := t.takeWhile isDigitC
  let r1 := t.dropWhile isDigitC
  if r1 = [] then
    if ip = [] then none else some (sign * (digitsToNat ip : ℚ))
  else if r1.headD ' ' = '.' then
    let r2 := r1.tail
    let fp := r2.takeWhile isDigitC
    let r3 := r2.dropWhile isDigitC
    if r3 ≠ [] then none
    else if ip = [] ∧ fp = [] then none
    else some (sign * ((digitsToNat ip : ℚ) + (digitsToNat fp : ℚ) / (10 : ℚ) ^ fp.length))
  else none

/-- Total variant of `float(s)` for the call sites where the token shape
guarantees success (the `0` default is unreachable there). -/
def pyFloat (s : List Char) : ℚ := (pyFloatOpt s).getD 0

/-- Round half to even to an integer (Python `round(q)` on an exact
rational). -/
def rne (q : ℚ) : ℤ :=
  let f := ⌊q⌋
  let r := q - (f : ℚ)
  if r < 1/2 then f
  else if 1/2 < r then f + 1
  else if f % 2 = 0 then f else f + 1

/-- Python `round(q, 2)` modelled exactly on rationals. -/
def round2 (q : ℚ) : ℚ := (rne (q * 100) : ℚ) / 100

/-! ## Calendar dates and `pd.to_datetime(..., errors="coerce")` -/

structure MDate where
  y : Nat
  m : Nat
  d : Nat
deriving DecidableEq, Repr

def isLeap (y : Nat) : Bool := (y % 4 = 0 && y % 100 ≠ 0) || y % 400 = 0

def daysInMonth (y m : Nat) : Nat :=
  if m = 2 then (if isLeap y then 29 else 28)
  else if m = 4 ∨ m = 6 ∨ m = 9 ∨ m = 11 then 30
  else 31

def mdateKey (dt : MDate) : Nat := dt.y * 10000 + dt.m * 100 + dt.d

/-- `pd.Timestamp` bounds: representable dates run from 1677-09-22 to
2262-04-11; outside them `errors="coerce"` yields `NaT`. -/
def inTsBounds (dt : MDate) : Bool :=
  16770922 ≤ mdateKey dt && mdateKey dt ≤ 22620411

/-- Python `s.split(sep)` for a single-character separator. -/
def splitOnChar (sep : Char) : List Char → List (List Char)
  | [] => [[]]
  | c :: t =>
    if c = sep then [] :: splitOnChar sep t
    else match splitOnChar sep t with
      | [] => [[c]]          -- unreachable: never returns []
      | w :: ws => (c :: w) :: ws

/-- Shared validation for a  `a/b/y` date-string: both month and day
fields are 1–2 digits, the year 1–4 digits, and the combination is a real
calendar date inside the Timestamp range; otherwise `NaT` (`none`). -/
def mkValidDate (my dy : Nat) (mm dd yy : List Char) : Option MDate :=
  if mm ≠ [] ∧ mm.length ≤ 2 ∧ mm.all isDigitC ∧
     dd ≠ [] ∧ dd.length ≤ 2 ∧ dd.all isDigitC ∧
     yy ≠ [] ∧ yy.length ≤ 4 ∧ yy.all isDigitC then
    let dt : MDate := ⟨digitsToNat yy, my, dy⟩
    if 1 ≤ my ∧ my ≤ 12 ∧ 1 ≤ dy ∧ dy ≤ daysInMonth dt.y my ∧ inTsBounds dt then
      some dt
    else none
  else none

/-- `pd.to_datetime(s, format="%m/%d/%Y", errors="coerce")`. -/
def parseDateMDY (s : List Char) : Option MDate :=
  match splitOnChar '/' s with
  | [mm, dd, yy] =>
    mkValidDate (digitsToNat mm) (digitsToNat dd) mm dd yy
  | _ => none

/-- `pd.to_datetime(s, format="%d/%m/%Y", errors="coerce")` (Banamex). -/
def parseDateDMY (s : List Char) : Option MDate :=
  match splitOnChar '/' s with
  | [dd, mm, yy] =>
    mkValidDate (digitsToNat mm) (digitsToNat dd) mm dd yy
  | _ => none

/-! ## Transactions, rows and the final DataFrame stage -/

/-- A transaction dict as built inside the loaders, before
`pd.to_datetime` is applied (`Date` is still a string). -/
structure Txn where
  dateStr : List Char
  descr : List Char
  debit : Option ℚ
  credit : Option ℚ
deriving DecidableEq, Repr

/-- A row of the resulting DataFrame: `Date` parsed (or `NaT`), amounts
numeric. -/
structure Row where
  date : Option MDate
  descr : List Char
  debit : Option ℚ
  credit : Option ℚ
deriving DecidableEq, Repr

/-- `pd.to_datetime` + `pd.to_numeric` on one record (`mdy` selects the
date format). -/
def toRow (mdy : Bool) (t : Txn) : Row :=
  { date := if mdy then parseDateMDY t.dateStr else parseDateDMY t.dateStr
    descr := t.descr
    debit := t.debit
    credit := t.credit }

/-- Sort key of `df.sort_values("Date")`: `NaT` sorts last
(`na_position="last"`). -/
def rowKey (r : Row) : Nat :=
  match r.date with
  | some dt => mdateKey dt
  | none => 99999999

/-- Stable insertion used to model `df.sort_values("Date")`: the incoming
row (which precedes the already-sorted rows in input order) is placed
before the first row with the same or a larger key, so the relative order
of equal dates is preserved (the modelling choice for pandas'
deterministic sort). -/
def insertByKey (x : Row) : List Row → List Row
  | [] => [x]
  | y :: ys => if rowKey x ≤ rowKey y then x :: y :: ys else y :: insertByKey x ys

def sortByDate : List Row → List Row
  | [] => []
  | x :: xs => insertByKey x (sortByDate xs)

/-- Errors surfaced by the loaders (`raise ValueError(...)` for an empty
parse; `ValueError` from `float()` inside the Banamex loop). -/
inductive LoadErr where
  | noTransactions
  | floatValueError
deriving DecidableEq, Repr

/-! ## Filename pattern `re.search(r"-(\w+)-(\d{4})", filename)` -/

def isWordChar (c : Char) : Bool :=
  isDigitC c || ('a' ≤ c && c ≤ 'z') || ('A' ≤ c && c ≤ 'Z') || c = '_'

/-- Try the pattern anchored at the current position: `-` then a maximal
`\w+` run, then `-`, then four digits. -/
def dashWordDashYearHere (s : List Char) : Option (List Char × List Char) :=
  if s.headD ' ' = '-' then
    let r := s.tail
    let w := r.takeWhile isWordChar
    let r2 := r.dropWhile isWordChar
    if w = [] then none
    else if r2.headD ' ' = '-' ∧ (r2.tail.take 4).length = 4 ∧
            (r2.tail.take 4).all isDigitC then
      some (w, r2.tail.take 4)
    else none
  else none

/-- `re.search`: first position where the pattern matches; groups
`(month-token, year)`. -/
def searchDashWordDashYear : List Char → Option (List Char × List Char)
  | [] => none
  | c :: t =>
    match dashWordDashYearHere (c :: t) with
    | some g => some g
    | none => searchDashWordDashYear t

/-- `year = year_match.group(2) if year_match else "2025"`. -/
def yearOfFilename (filename : List Char) : List Char :=
  match searchDashWordDashYear filename with
  | some (_, y) => y
  | none => ['2', '0', '2', '5']

/-! ## Date-token matchers (`\d{1,2}/\d{1,2}` and friends)

`\d{1,2}` is greedy; since `/` and whitespace are not digits, the
backtracking of the Python engine collapses to: the digit run before the
`/` (resp. before the required whitespace) must have length 1 or 2. -/

/-- `^\d{1,2}/\d{1,2}` as a Boolean test (no trailing requirement). -/
def startsWithDateMD (s : List Char) : Bool :=
  let r1 := s.takeWhile isDigitC
  let t1 := s.dropWhile isDigitC
  if r1 = [] || r1.length > 2 then false
  else match t1 with
    | '/' :: t2 => (t2.takeWhile isDigitC) ≠ []
    | _ => false

/-- `^(\d{1,2})/(\d{1,2})` returning the two digit groups (day greedy, at
most 2 digits) and the remainder. -/
def matchDateMD (s : List Char) : Option (List Char × List Char × List Char) :=
  let r1 := s.takeWhile isDigitC
  let t1 := s.dropWhile isDigitC
  if r1 = [] || r1.length > 2 then none
  else match t1 with
    | '/' :: t2 =>
      let r2 := t2.takeWhile isDigitC
      if r2 = [] then none
      else if r2.length ≥ 2 then some (r1, r2.take 2, t2.drop 2)
      else some (r1, r2, t2.drop r2.length)
    | _ => none

/-- `^(\d{1,2}/\d{1,2})\s+` — the day's digit count backtracks against
the mandatory whitespace; returns `(month, day, rest-after-whitespace)`. -/
def matchDateMDWs (s : List Char) : Option (List Char × List Char × List Char) :=
  let r1 := s.takeWhile isDigitC
  let t1 := s.dropWhile isDigitC
  if r1 = [] ∨ r1.length > 2 then none
  else if t1.headD ' ' = '/' then
    let t2 := t1.tail
    let r2 := t2.takeWhile isDigitC
    if r2 = [] then none
    else if r2.length = 1 ∧ t2.drop 1 ≠ [] ∧ isWs ((t2.drop 1).headD ' ') then
      some (r1, r2, (t2.drop 1).dropWhile isWs)
    else if r2.length = 2 ∧ t2.drop 2 ≠ [] ∧ isWs ((t2.drop 2).headD ' ') then
      some (r1, r2.take 2, (t2.drop 2).dropWhile isWs)
    else none  -- no whitespace after either candidate day: no match
  else none

/-- `^(\d{1,2}/\d{1,2})\s*(.*)$` (Citi's `date_only_match`): always
consumes the date greedily, then optional whitespace; returns
`(month, day, group2)`. -/
def matchDateOptRest (s : List Char) : Option (List Char × List Char × List Char) :=
  match matchDateMD s with
  | some (mm, dd, rest) => some (mm, dd, rest.dropWhile isWs)
  | none => none

/-- The amount token `-?\$?[\d,]+\.\d{2}` tried at the current position;
returns `(token, rest)`.  `[\d,]+` is greedy and `.` is outside the
class, so no backtracking arises. -/
def matchAmountTok (s : List Char) : Option (List Char × List Char) :=
  let (neg, s1) : Bool × List Char := match s with
    | '-' :: r => (true, r)
    | r => (false, r)
  let (dol, s2) : Bool × List Char := match s1 with
    | '$' :: r => (true, r)
    | r => (false, r)
  let run := s2.takeWhile isDigitComma
  let t := s2.dropWhile isDigitComma
  if run = [] then none
  else match t with
    | '.' :: d1 :: d2 :: rest =>
      if isDigitC d1 && isDigitC d2 then
        some ((if neg then ['-'] else []) ++ (if dol then ['$'] else []) ++
              run ++ '.' :: [d1, d2], rest)
      else none
    | _ => none

/-- `\s+` followed by an amount token: used as the boundary test of the
lazy groups `(.+?)\s+(-?\$?[\d,]+\.\d{2})`. -/
def wsAmount (s : List Char) : Option (List Char × List Char) :=
  match s with
  | c :: _ =>
    if isWs c then matchAmountTok (s.dropWhile isWs) else none
  | [] => none

/-- Lazy split `(.+?)\s+(-?\$?[\d,]+\.\d{2})`: the shortest non-empty
prefix after which whitespace and an amount token follow; returns
`(group, token, rest-after-token)`. -/
def lazyAmtSplit (s : List Char) : Option (List Char × List Char × List Char) :=
  go [] s
where
  go (accRev : List Char) : List Char → Option (List Char × List Char × List Char)
    | [] => none
    | c :: t =>
      if accRev ≠ [] then
        match wsAmount (c :: t) with
        | some (tok, rest) => some (accRev.reverse, tok, rest)
        | none => go (c :: accRev) t
      else go (c :: accRev) t

/-! ## Chase loader (`chase_file_loader.py`) -/

/-- `ChaseFileLoader._parse_chase_transaction_line` result before the
Debit/Credit split (the Python dict `{Date, Description, Amount}`). -/
structure ChTrans where
  dateStr : List Char
  descr : List Char
  amount : ℚ
deriving DecidableEq, Repr

/-- End-anchored part `(.+?)\s+\$?([\d,]+\.\d{2})$` of the Chase line
regex: because of the `$` anchor the token is uniquely located at the end
and the lazy description is everything before the whitespace run that
precedes it.  Returns `(description-group, amount-group)`. -/
def chaseEndSplit (mid : List Char) : Option (List Char × List Char) :=
  let rev := mid.reverse
  if isDigitC (rev.headD ' ') ∧ isDigitC (rev.tail.headD ' ') ∧
     rev.tail.tail.headD ' ' = '.' then
    let d2 := rev.headD ' '
    let d1 := rev.tail.headD ' '
    let rest := rev.tail.tail.tail
    let runRev := rest.takeWhile isDigitComma
    let r2 := rest.dropWhile isDigitComma
    if runRev = [] then none
    else
      let r3 := if r2.headD ' ' = '$' then r2.tail else r2
      if r3 ≠ [] ∧ isWs (r3.headD ' ') then
        let descrRev := r3.dropWhile isWs
        if descrRev = [] then none
        else some (descrRev.reverse, runRev.reverse ++ '.' :: [d1, d2])
      else none
  else none

/-- `ChaseFileLoader._parse_chase_transaction_line`: regex
`^(\d{1,2}/\d{1,2})\s+(.+?)\s+\$?([\d,]+\.\d{2})$` on the stripped line;
the amount is `float(group3.replace(",", "").replace("$", ""))`. -/
def parseChaseTransactionLine (line : List Char) (year : List Char) : Option ChTrans :=
  let s := pyStrip line
  match matchDateMDWs s with
  | none => none
  | some (mm, dd, rest) =>
    match chaseEndSplit rest with
    | none => none
    | some (descr, amtTok) =>
      some { dateStr := mm ++ '/' :: dd ++ '/' :: year
             descr := pyStrip descr
             amount := pyFloat (replaceAll ['$'] [] (replaceAll [','] [] amtTok)) }

inductive ChaseSection where
  | credits
  | debits
deriving DecidableEq, Repr

structure ChaseSt where
  sec : Option ChaseSection
  creditsL : List ChTrans
  debitsL : List ChTrans
deriving Repr

def chaseInit : ChaseSt := ⟨none, [], []⟩

/-- Body of the line loop of
`ChaseFileLoader._extract_transactions_from_pdf`. -/
def chaseStep (year : List Char) (st : ChaseSt) (line : List Char) : ChaseSt :=
  let stripped := pyStrip line
  if containsSub "DEPOSITS AND ADDITIONS".toList line then
    { st with sec := some .credits }
  else if containsSub "ELECTRONIC WITHDRAWALS".toList line then
    { st with sec := some .debits }
  else if startsWith "Total Deposits".toList stripped ||
          startsWith "Total Electronic".toList stripped then
    { st with sec := none }
  else if st.sec.isNone || stripped = [] then st
  else if containsSub "DATE DESCRIPTION AMOUNT".toList line then st
  else
    match parseChaseTransactionLine line year with
    | some t =>
      match st.sec with
      | some .credits => { st with creditsL := st.creditsL ++ [t] }
      | some .debits => { st with debitsL := st.debitsL ++ [t] }
      | none => st
    | none => st

/-- Flatten the document's pages into the processed line sequence:
`text.split("\n")` per page, empty page texts skipped
(`if not text: continue`). -/
def docLines (pages : List (List Char)) : List (List Char) :=
  ((pages.filter (fun p => p ≠ [])).map splitNL).flatten

/-- Transaction dicts in pre-sort order: all credits (with
`Debit=None`), then all debits, as the Python code concatenates them. -/
def chaseTxns (filename : List Char) (pages : List (List Char)) : List Txn :=
  let year := yearOfFilename filename
  let fin := (docLines pages).foldl (chaseStep year) chaseInit
  fin.creditsL.map (fun c =>
      { dateStr := c.dateStr, descr := c.descr, debit := none, credit := some c.amount }) ++
  fin.debitsL.map (fun d =>
      { dateStr := d.dateStr, descr := d.descr, debit := some d.amount, credit := none })

/-- `ChaseFileLoader._extract_transactions_from_pdf`: raises on an empty
extraction, otherwise converts and sorts by date. -/
def chaseLoad (filename : List Char) (pages : List (List Char)) : Except LoadErr (List Row) :=
  let all := chaseTxns filename pages
  if all = [] then .error .noTransactions
  else .ok (sortByDate (all.map (toRow true)))

/-! ## Amount scanners (`re.findall`) -/

/-- The token `[\d,]+\.\d{2}` tried at the current position (greedy run;
`.` is outside the class, so there is no backtracking); returns
`(token, rest)`. -/
def tok2At (s : List Char) : Option (List Char × List Char) :=
  let run := s.takeWhile isDigitComma
  let r := s.dropWhile isDigitComma
  if run = [] then none
  else if r.headD ' ' = '.' ∧ isDigitC (r.tail.headD ' ') ∧
          isDigitC (r.tail.tail.headD ' ') then
    some (run ++ '.' :: [r.tail.headD ' ', r.tail.tail.headD ' '], r.tail.tail.tail)
  else none

/-- `re.findall(r"[\d,]+\.\d{2}", s)` (Wells Fargo): left-to-right scan,
non-overlapping matches, advancing one character on failure (fuel `≥
length` suffices). -/
def scanAmts2F : Nat → List Char → List (List Char)
  | 0, _ => []
  | _ + 1, [] => []
  | fuel + 1, c :: t =>
    match tok2At (c :: t) with
    | some (tok, rest) => tok :: scanAmts2F fuel rest
    | none => scanAmts2F fuel t

def scanAmts2 (s : List Char) : List (List Char) := scanAmts2F s.length s

/-- The token `[\d,]+\.\d\s?\d` tried at the current position (the two
decimal digits may be separated by one whitespace character, kept in the
token). -/
def tokBmxAt (s : List Char) : Option (List Char × List Char) :=
  let run := s.takeWhile isDigitComma
  let r := s.dropWhile isDigitComma
  if run = [] then none
  else if r.headD ' ' = '.' ∧ isDigitC (r.tail.headD ' ') then
    let d1 := r.tail.headD ' '
    let rest := r.tail.tail
    if isDigitC (rest.headD ' ') then
      some (run ++ '.' :: [d1, rest.headD ' '], rest.tail)
    else if isWs (rest.headD ' ') ∧ isDigitC (rest.tail.headD ' ') then
      some (run ++ '.' :: d1 :: rest.headD ' ' :: [rest.tail.headD ' '], rest.tail.tail)
    else none
  else none

/-- `re.findall(r"[\d,]+\.\d\s?\d", s)` (Banamex). -/
def scanAmtsBmxF : Nat → List Char → List (List Char)
  | 0, _ => []
  | _ + 1, [] => []
  | fuel + 1, c :: t =>
    match tokBmxAt (c :: t) with
    | some (tok, rest) => tok :: scanAmtsBmxF fuel rest
    | none => scanAmtsBmxF fuel t

def scanAmtsBmx (s : List Char) : List (List Char) := scanAmtsBmxF s.length s

/-! ## Wells Fargo loader (`wellsfargo_file_loader.py`) -/

def wfCreditKeywords : List (List Char) :=
  ["transfer from".toList, "deposit".toList, "credit".toList,
   "interest".toList, "refund".toList, "recurring transfer from".toList]

/-- Lines 49–56 of `_parse_wellsfargo_transaction_line`: with two or more
amounts the second-to-last is the transaction amount (the last is the
balance and is ignored); with one amount that amount is used. -/
def wfTransactionAmount (amounts : List (List Char)) : ℚ :=
  if amounts.length ≥ 2 then
    pyFloat (replaceAll [','] [] (amounts.getD (amounts.length - 2) []))
  else
    pyFloat (replaceAll [','] [] (amounts.headD []))

/-- `WellsfargoFileLoader._parse_wellsfargo_transaction_line`. -/
def parseWellsfargoTransactionLine (line : List Char) (year : List Char) : Option Txn :=
  let s := pyStrip line
  match matchDateMDWs s with
  | none => none
  | some (mm, dd, rest) =>
    if rest = [] then none            -- `(.+)$` needs at least one char
    else
      let amounts := scanAmts2 rest
      if amounts = [] then none
      else
        let description := amounts.foldl
          (fun d amt => pyStrip (replaceAll amt [] d)) rest
        let description := normSpaces description
        let amt := wfTransactionAmount amounts
        let isCredit := wfCreditKeywords.any
          (fun kw => containsSub kw (pyLower description))
        some { dateStr := mm ++ '/' :: dd ++ '/' :: year
               descr := description
               debit := if isCredit then none else some amt
               credit := if isCredit then some amt else none }

structure WfSt where
  inSec : Bool
  pending : Option (List Char)
  out : List Txn
deriving Repr

def wfInit : WfSt := ⟨false, none, []⟩

/-- Flush the pending line: parse it and append on success
(the `if pending_line: ... transactions.append` blocks). -/
def wfFlushPending (year : List Char) (st : WfSt) : WfSt :=
  match st.pending with
  | some pl =>
    match parseWellsfargoTransactionLine pl year with
    | some t => { st with pending := none, out := st.out ++ [t] }
    | none => { st with pending := none }
  | none => st

/-- Body of the line loop of
`WellsfargoFileLoader._extract_transactions_from_pdf`. -/
def wfStep (year : List Char) (st : WfSt) (line : List Char) : WfSt :=
  if containsSub "Transaction history".toList line then { st with inSec := true }
  else if startsWith "Totals".toList (pyStrip line) then
    wfFlushPending year { st with inSec := false }
  else if ¬st.inSec then st
  else if containsSub "Date Number Description".toList line ||
          containsSub "Deposits/".toList line ||
          containsSub "Withdrawals/".toList line then st
  else if (matchDateMDWs line).isSome then   -- `re.match(r"^\d{1,2}/\d{1,2}\s+", line)`
    let st := wfFlushPending year st
    match parseWellsfargoTransactionLine line year with
    | some t => { st with out := st.out ++ [t] }
    | none => { st with pending := some line }
  else
    match st.pending with
    | some pl =>
      let merged := pl ++ ' ' :: pyStrip line
      match parseWellsfargoTransactionLine merged year with
      | some t => { st with pending := none, out := st.out ++ [t] }
      | none => { st with pending := some merged }
    | none => st

/-- Transaction dicts of the Wells Fargo loader, in encounter order
(this loader performs no sort). -/
def wfTxns (filename : List Char) (pages : List (List Char)) : List Txn :=
  let year := yearOfFilename filename
  let fin := wfFlushPending year ((docLines pages).foldl (wfStep year) wfInit)
  fin.out

/-- `WellsfargoFileLoader._extract_transactions_from_pdf`: raises when no
transactions were extracted; note the missing `sort_values` — rows come
back in encounter order. -/
def wfLoad (filename : List Char) (pages : List (List Char)) : Except LoadErr (List Row) :=
  let all := wfTxns filename pages
  if all = [] then .error .noTransactions
  else .ok (all.map (toRow true))

/-! ## Banamex loader (`banamex_file_loader.py`) -/

/-- `BanamexFileLoader.PESO_TO_DOLLAR_RATE`. -/
def PESO_TO_DOLLAR_RATE : ℚ := 18.5

/-- `BanamexFileLoader._convert_to_dollars`. -/
def convertToDollars (pesoAmount : Option ℚ) : Option ℚ :=
  match pesoAmount with
  | none => none
  | some q => some (round2 (q / PESO_TO_DOLLAR_RATE))

def bmxMonths : List (List Char × List Char) :=
  [("ENE".toList, "01".toList), ("FEB".toList, "02".toList),
   ("MAR".toList, "03".toList), ("ABR".toList, "04".toList),
   ("MAY".toList, "05".toList), ("JUN".toList, "06".toList),
   ("JUL".toList, "07".toList), ("AGO".toList, "08".toList),
   ("SEP".toList, "09".toList), ("OCT".toList, "10".toList),
   ("NOV".toList, "11".toList), ("DIC".toList, "12".toList)]

/-- `BanamexFileLoader._parse_month_abbrev`:
`months.get(month_abbrev.upper(), "01")`. -/
def parseMonthAbbrev (monthAbbrev : List Char) : List Char :=
  match bmxMonths.lookup (pyUpper monthAbbrev) with
  | some v => v
  | none => "01".toList

def bmxCreditKeywords : List (List Char) :=
  ["PAGO RECIBIDO".toList, "DEPOSITO".toList, "DEPÓSITO".toList,
   "ABONO".toList, "TRANSFERENCIA RECIBIDA".toList, "EXENCION".toList,
   "EXENCIÓN".toList, "INTERES".toList, "INTERÉS".toList]

/-- The in-flight transaction dict of the Banamex loop. -/
structure BmxPending where
  day : List Char
  month : List Char
  descLines : List (List Char)
  amounts : List ℚ
deriving Repr

/-- Lines 256–276 of `_add_transaction`: the `is_credit` flag — keyword
match first, then the balance-delta fallback when a previous balance is
available. -/
def bmxIsCredit (description : List Char) (prevBalance : Option ℚ) (balance : ℚ) : Bool :=
  if bmxCreditKeywords.any (fun kw => containsSub kw (pyUpper description)) then true
  else match prevBalance with
    | some pb => decide (pb < balance)
    | none => false

/-- `BanamexFileLoader._add_transaction`: returns the updated
`previous_balance` and the transaction to append (if any). -/
def bmxAddTransaction (t : BmxPending) (prevBalance : Option ℚ) (year : List Char) :
    Option ℚ × Option Txn :=
  if t.amounts = [] then (prevBalance, none)
  else
    let description := pyStrip (joinSpace t.descLines)
    if description = [] ∨ containsSub "SALDO ANTERIOR".toList (pyUpper description) then
      -- balance-only line: update the reference balance when a single amount
      if t.amounts.length = 1 then (some (t.amounts.headD 0), none)
      else (prevBalance, none)
    else if t.amounts.length = 1 then (prevBalance, none)
    else
      -- two or more amounts: first is the transaction amount, last the balance
      let transactionAmount := t.amounts.headD 0
      let balance := t.amounts.getLastD 0
      let isCredit := bmxIsCredit description prevBalance balance
      let amountDollars := convertToDollars (some transactionAmount)
      (some balance,
       some { dateStr := t.day ++ '/' :: t.month ++ '/' :: year
              descr := description
              debit := if isCredit then none else amountDollars
              credit := if isCredit then amountDollars else none })

/-- `day.zfill(2)` for the 1–2-digit day group. -/
def zfill2 (s : List Char) : List Char := if s.length ≥ 2 then s else '0' :: s

/-- `^(\d{1,2})\s+([A-Z]{3})\s+(.+)$` on the stripped line. -/
def matchBmxStart (s : List Char) : Option (List Char × List Char × List Char) :=
  let r1 := s.takeWhile isDigitC
  let t1 := s.dropWhile isDigitC
  if r1 = [] || r1.length > 2 then none
  else match t1 with
    | c :: t2 =>
      if isWs c then
        match t2.dropWhile isWs with
        | a :: b :: c3 :: t3 =>
          if ('A' ≤ a && a ≤ 'Z') && ('A' ≤ b && b ≤ 'Z') && ('A' ≤ c3 && c3 ≤ 'Z') then
            match t3 with
            | w :: t4 =>
              if isWs w then
                let rest := t4.dropWhile isWs
                if rest = [] then none else some (r1, [a, b, c3], rest)
              else none
            | [] => none
          else none
        | _ => none
      else none
    | [] => none

/-- Metadata lines: prefixes `SUC `, `CAJA `, `HORA `, `AUT ` or a full
match of `^\d{8,}$`. -/
def bmxIsMetadata (stripped : List Char) : Bool :=
  startsWith "SUC ".toList stripped || startsWith "CAJA ".toList stripped ||
  startsWith "HORA ".toList stripped || startsWith "AUT ".toList stripped ||
  (stripped ≠ [] && stripped.length ≥ 8 && stripped.all isDigitC)

/-- Amount parse of lines 162–163 / 179–180:
`float(a.replace(" ", "").replace(",", ""))` (total on scanner tokens). -/
def bmxParseAmtSpace (a : List Char) : ℚ :=
  pyFloat (replaceAll [','] [] (replaceAll [' '] [] a))

/-- The list comprehension of line 197–199,
`[float(a.replace(",", "")) for a in amounts]`: the first failing
`float` raises. -/
def bmxParseAmtsNoSpace : List (List Char) → Option (List ℚ)
  | [] => some []
  | a :: t =>
    match pyFloatOpt (replaceAll [','] [] a), bmxParseAmtsNoSpace t with
    | some q, some qs => some (q :: qs)
    | _, _ => none

structure BmxSt where
  inSec : Bool
  current : Option BmxPending
  prevBalance : Option ℚ
  out : List Txn
deriving Repr

def bmxInit : BmxSt := ⟨false, none, none, []⟩

/-- Finalize the current pending transaction through `_add_transaction`. -/
def bmxFinalize (year : List Char) (st : BmxSt) : BmxSt :=
  match st.current with
  | some t =>
    let (pb, tx) := bmxAddTransaction t st.prevBalance year
    { st with current := none, prevBalance := pb,
              out := st.out ++ tx.toList }
  | none => st

/-- Description cleanup shared by both branches: remove each found
amount once, then collapse whitespace
(`" ".join(desc.split()).strip()`). -/
def bmxCleanDesc (amounts : List (List Char)) (s : List Char) : List Char :=
  pyStrip (normSpaces (amounts.foldl (fun d amt => replaceFirst amt [] d) s))

/-- Body of the line loop of
`BanamexFileLoader._extract_transactions_from_pdf`; the error case is the
`ValueError` that `float(a.replace(",", ""))` (line 198) raises on a
token with an interior space. -/
def bmxStep (year : List Char) (st : BmxSt) (line : List Char) : Except LoadErr BmxSt :=
  let stripped := pyStrip line
  if containsSub "FECHA CONCEPTO".toList line &&
     (containsSub "RETIROS".toList line || containsSub "DEP".toList line) then
    .ok { st with inSec := true }
  else if containsSub "Resumen Operaciones".toList line ||
          startsWith "TARJETA ".toList stripped then
    .ok { bmxFinalize year st with inSec := false }
  else if ¬st.inSec then .ok st
  else if startsWith "Pägina ".toList stripped ||
          startsWith "Página ".toList stripped then
    .ok { st with inSec := false }
  else if stripped = [] || containsSub "FECHA CONCEPTO".toList line ||
          startsWith "000".toList stripped ||
          containsSub "Detalle de Operaciones".toList line ||
          containsSub "En pesos Moneda Nacional".toList line then
    .ok st
  else
    match matchBmxStart stripped with
    | some (dayRaw, abk, rest) =>
      -- finalize the previous transaction, then open a new one
      let st := bmxFinalize year st
      let amounts := scanAmtsBmx rest
      let desc := bmxCleanDesc amounts rest
      let descLines :=
        if desc ≠ [] ∧ pyUpper desc ≠ "SALDO ANTERIOR".toList then [desc] else []
      let amountsQ := amounts.map bmxParseAmtSpace
      let newCur : BmxPending :=
        { day := zfill2 dayRaw, month := parseMonthAbbrev abk,
          descLines := descLines, amounts := amountsQ }
      .ok { st with current := some newCur }
    | none =>
      match st.current with
      | none => .ok st
      | some cur =>
        let amounts := scanAmtsBmx stripped
        if bmxIsMetadata stripped then
          if amounts ≠ [] then
            .ok { st with current := some { cur with amounts := amounts.map bmxParseAmtSpace } }
          else .ok st
        else
          let desc := bmxCleanDesc amounts stripped
          let cur :=
            if desc ≠ [] ∧ ¬startsWith ['$'] desc then
              { cur with descLines := cur.descLines ++ [desc] }
            else cur
          if amounts ≠ [] then
            -- line 198 keeps the interior space: `float(a.replace(",", ""))`
            match bmxParseAmtsNoSpace amounts with
            | some qs => .ok { st with current := some { cur with amounts := qs } }
            | none => .error .floatValueError
          else .ok { st with current := some cur }

/-- The collected Banamex transaction dicts (encounter order), or the
propagated `float` error. -/
def bmxTxns (filename : List Char) (pages : List (List Char)) : Except LoadErr (List Txn) :=
  let year := yearOfFilename filename
  match (docLines pages).foldlM (bmxStep year) bmxInit with
  | .ok st => .ok (bmxFinalize year st).out
  | .error e => .error e

/-- `BanamexFileLoader._extract_transactions_from_pdf`: an empty
extraction returns an empty DataFrame (no raise); dates use
`%d/%m/%Y`. -/
def bmxLoad (filename : List Char) (pages : List (List Char)) : Except LoadErr (List Row) :=
  match bmxTxns filename pages with
  | .error e => .error e
  | .ok all =>
    if all = [] then .ok []
    else .ok (sortByDate (all.map (toRow false)))

/-! ## Citi loader (`citi_file_loader.py`): regex helpers -/

/-- `^\d{1,2}/\d{1,2}\s+\d{1,2}/\d{1,2}` as a Boolean test. -/
def twoDatesPrefix (s : List Char) : Bool :=
  match matchDateMDWs s with
  | some (_, _, r) => startsWithDateMD r
  | none => false

/-- `re.search(r"Year to Date\s*:\s*$", g, re.IGNORECASE)`: the string
ends with literal `year to date` (case-insensitive), optional whitespace,
`:`, optional whitespace. -/
def yearToDateSuffix (g : List Char) : Bool :=
  let rev := (pyLower g).reverse
  match rev.dropWhile isWs with
  | ':' :: r2 =>
    "year to date".toList.reverse.isPrefixOf (r2.dropWhile isWs)
  | _ => false

/-- Full match `^-?\$?[\d,]+\.\d{2}\s*$`. -/
def fullAmtWs (s : List Char) : Bool :=
  match matchAmountTok s with
  | some (_, r) => r.dropWhile isWs = []
  | none => false

/-- `^[\d,]+\.\d+-?\s+MEXICAN\s+PESO` — the shared prefix of the peso
patterns; returns the remainder after `PESO`. -/
def pesoCore (s : List Char) : Option (List Char) :=
  let run := s.takeWhile isDigitComma
  let t := s.dropWhile isDigitComma
  if run = [] then none
  else match t with
    | '.' :: t2 =>
      let ds := t2.takeWhile isDigitC
      let t3 := t2.dropWhile isDigitC
      if ds = [] then none
      else
        let t4 := match t3 with
          | '-' :: r => r
          | r => r
        match t4 with
        | c :: _ =>
          if isWs c then
            let r5 := t4.dropWhile isWs
            if "MEXICAN".toList.isPrefixOf r5 then
              let r6 := r5.drop 7
              match r6 with
              | c2 :: _ =>
                if isWs c2 then
                  let r7 := r6.dropWhile isWs
                  if "PESO".toList.isPrefixOf r7 then some (r7.drop 4) else none
                else none
              | [] => none
            else none
          else none
        | [] => none
    | _ => none

/-- `re.match(r"^[\d,]+\.\d+-?\s+MEXICAN\s+PESO", s)` as a Boolean. -/
def pesoPrefixMatch (s : List Char) : Bool := (pesoCore s).isSome

/-- `re.match(r"^[\d,]+\.\d+-?\s+MEXICAN\s+PESO\s+(-?\$?[\d,]+\.\d{2})", s)`:
returns the amount group. -/
def pesoAmtMatch (s : List Char) : Option (List Char) :=
  match pesoCore s with
  | some rest =>
    match rest with
    | c :: _ =>
      if isWs c then
        match matchAmountTok (rest.dropWhile isWs) with
        | some (tok, _) => some tok
        | none => none
      else none
    | [] => none
  | none => none

/-- `re.search(r"\$[\d,]+\.\d{2}", s)` as a Boolean. -/
def hasDollarAmt : List Char → Bool
  | [] => false
  | '$' :: t =>
    (let run := t.takeWhile isDigitComma
     let r := t.dropWhile isDigitComma
     run ≠ [] &&
       (match r with
        | '.' :: d1 :: d2 :: _ => isDigitC d1 && isDigitC d2
        | _ => false)) ||
    hasDollarAmt t
  | _ :: t => hasDollarAmt t

/-- `\+\$[\d,]+\.\d{2}` at the current position. -/
def plusDollarAmtAt (s : List Char) : Bool :=
  match s with
  | '+' :: '$' :: t =>
    let run := t.takeWhile isDigitComma
    let r := t.dropWhile isDigitComma
    run ≠ [] &&
      (match r with
       | '.' :: d1 :: d2 :: _ => isDigitC d1 && isDigitC d2
       | _ => false)
  | _ => false

/-- `\+\$[\d,]+\.\d{2}` found anywhere (the `.*?\+\$...` part of the
reward-text pattern). -/
def hasPlusDollarAmt : List Char → Bool
  | [] => false
  | c :: t => plusDollarAmtAt (c :: t) || hasPlusDollarAmt t

/-- Does `\s+\d%\s+on\s+.*?\+\$[\d,]+\.\d{2}.*$` (case-insensitive `on`)
match starting exactly here? -/
def rewardTailAt (s : List Char) : Bool :=
  match s with
  | c :: _ =>
    isWs c &&
    (match s.dropWhile isWs with
     | d :: '%' :: r2 =>
       isDigitC d &&
       (match r2 with
        | c2 :: _ =>
          isWs c2 &&
          (match r2.dropWhile isWs with
           | o :: n :: r4 =>
             lowerChar o = 'o' && lowerChar n = 'n' &&
             (match r4 with
              | c3 :: _ => isWs c3 && hasPlusDollarAmt (r4.dropWhile isWs)
              | [] => false)
           | _ => false)
        | [] => false)
     | _ => false)
  | [] => false

/-- `re.sub(r'\s+\d%\s+on\s+.*?\+\$[\d,]+\.\d{2}.*$', '', s, re.IGNORECASE)`:
delete from the first reward-text occurrence to the end. -/
def rewardSub : List Char → List Char
  | [] => []
  | c :: t => if rewardTailAt (c :: t) then [] else c :: rewardSub t

/-- Case-insensitive literal word at the head: returns the rest. -/
def ciWord (w : List Char) (s : List Char) : Option (List Char) :=
  if w.isPrefixOf (pyLower s) then some (s.drop w.length) else none

/-- Does `\s+Costco\s+Cash\s+Back\s+Rewards$` (case-insensitive) match
starting exactly here? -/
def costcoTailAt (s : List Char) : Bool :=
  match s with
  | c :: _ =>
    isWs c &&
    (let step (w : List Char) (r : Option (List Char)) : Option (List Char) :=
       match r with
       | some (c2 :: t2) =>
         if isWs c2 then ciWord w ((c2 :: t2).dropWhile isWs) else none
       | _ => none
     let r1 := ciWord "costco".toList (s.dropWhile isWs)
     let r2 := step "cash".toList r1
     let r3 := step "back".toList r2
     let r4 := step "rewards".toList r3
     r4 = some [])
  | [] => false

/-- `re.sub(r'\s+Costco\s+Cash\s+Back\s+Rewards$', '', s, re.IGNORECASE)`. -/
def costcoSub : List Char → List Char
  | [] => []
  | c :: t => if costcoTailAt (c :: t) then [] else c :: costcoSub t

/-- Merchant-name alternation
`(?:\s+\d+%\s+on\s+|\s+Total\s+Earned)` (case-sensitive). -/
def merchTailAt (s : List Char) : Bool :=
  (match s with
   | c :: _ =>
     isWs c &&
     (let r := s.dropWhile isWs
      let ds := r.takeWhile isDigitC
      let r2 := r.dropWhile isDigitC
      ds ≠ [] &&
        (match r2 with
         | '%' :: c2 :: t2 =>
           isWs c2 &&
           (match (c2 :: t2).dropWhile isWs with
            | 'o' :: 'n' :: r4 =>
              (match r4 with
               | c3 :: _ => isWs c3
               | [] => false)
            | _ => false)
         | _ => false))
   | [] => false) ||
  (match s with
   | c :: _ =>
     isWs c &&
     (let r := s.dropWhile isWs
      "Total".toList.isPrefixOf r &&
        (match r.drop 5 with
         | c2 :: t2 =>
           isWs c2 && "Earned".toList.isPrefixOf ((c2 :: t2).dropWhile isWs)
         | [] => false))
   | [] => false)

/-- `re.match(r"^([A-Z0-9][A-Z0-9\s\*\-]+?)(?:\s+\d+%\s+on\s+|\s+Total\s+Earned)", s)`:
the lazy group grows until the alternation matches; returns group 1. -/
def merchantMatch (s : List Char) : Option (List Char) :=
  match s with
  | c :: t =>
    if ('A' ≤ c && c ≤ 'Z') || isDigitC c then go [c] t else none
  | [] => none
where
  inClass (c : Char) : Bool :=
    ('A' ≤ c && c ≤ 'Z') || isDigitC c || isWs c || c = '*' || c = '-'
  go (accRev : List Char) : List Char → Option (List Char)
    | [] => none
    | c :: t =>
      if inClass c then
        if merchTailAt t then some ((c :: accRev).reverse)
        else go (c :: accRev) t
      else none

/-- `line_stripped.split("Total Earned:")[0]`. -/
def takeUntilSub (sep : List Char) : List Char → List Char
  | [] => []
  | c :: t => if sep.isPrefixOf (c :: t) then [] else c :: takeUntilSub sep t

/-! ## Citi loader: `_parse_citi_transaction_line` -/

inductive CitiParseRes where
  | fragment
  | found (t : Txn)
  | nomatched
deriving DecidableEq, Repr

def citiAmtVal (tok : List Char) : ℚ :=
  pyFloat (replaceAll ['$'] [] (replaceAll [','] [] tok))

/-- Build the Debit/Credit pair the Citi code uses everywhere:
negative amounts are credits (stored as `abs(amount)`). -/
def citiDC (dateStr descr : List Char) (amount : ℚ) : Txn :=
  { dateStr := dateStr, descr := descr
    debit := if amount < 0 then none else some amount
    credit := if amount < 0 then some |amount| else none }

/-- First-match fallback between two optional results (Python's sequence of
`re.match` attempts with early `return`). -/
def oalt (a b : Option Txn) : Option Txn :=
  match a with
  | some x => some x
  | none => b

/-- Format 1: two dates, description, amount.  A description ending in a
`month/year` date makes the match spurious (`pass`: fall to Format 2). -/
def citiF1 (s year : List Char) : Option Txn :=
  match matchDateMDWs s with
  | some (m1, d1, r1) =>
    match matchDateMDWs r1 with
    | some (_, _, r2) =>
      match lazyAmtSplit r2 with
      | some (g3, tok, _) =>
        if yearToDateSuffix g3 then none
        else some (citiDC (m1 ++ '/' :: d1 ++ '/' :: year) (pyStrip g3) (citiAmtVal tok))
      | none => none
    | none => none
  | none => none

/-- Format 2: single date, description, amount. -/
def citiF2 (s year : List Char) : Option Txn :=
  match matchDateMDWs s with
  | some (m, d, r) =>
    match lazyAmtSplit r with
    | some (g2, tok, _) =>
      if ¬startsWithDateMD g2 ∧ tok.headD ' ' ≠ '+' then
        some (citiDC (m ++ '/' :: d ++ '/' :: year) (pyStrip g2) (citiAmtVal tok))
      else none
    | none => none
  | none => none

/-- Format 1b: two dates and only an amount. -/
def citiF1b (s year : List Char) : Option Txn :=
  match matchDateMDWs s with
  | some (m1, d1, r1) =>
    match matchDateMDWs r1 with
    | some (_, _, r2) =>
      match matchAmountTok r2 with
      | some (tok, rest) =>
        if rest.dropWhile isWs = [] then
          some (citiDC (m1 ++ '/' :: d1 ++ '/' :: year)
            "PENDING_DESCRIPTION".toList (citiAmtVal tok))
        else none
      | none => none
    | none => none
  | none => none

/-- Format 2 (second occurrence): single date and amount. -/
def citiF2p (s year : List Char) : Option Txn :=
  match matchDateMDWs s with
  | some (m, d, r) =>
    match matchAmountTok r with
    | some (tok, _) =>
      some (citiDC (m ++ '/' :: d ++ '/' :: year)
        "PENDING_DESCRIPTION".toList (citiAmtVal tok))
    | none => none
  | none => none

/-- `CitiFileLoader._parse_citi_transaction_line` (the four format
attempts, in source order, then the fragment check). -/
def parseCitiTransactionLine (line : List Char) (year : List Char) : CitiParseRes :=
  let s := pyStrip line
  match oalt (citiF1 s year) (oalt (citiF2 s year) (oalt (citiF1b s year) (citiF2p s year))) with
  | some t => .found t
  | none =>
    -- Format 3: single date with description only
    match matchDateMDWs s with
    | some (_, _, r) =>
      if ¬fullAmtWs (pyStrip r) then .fragment else .nomatched
    | none => .nomatched

/-! ## Citi loader: the line loop -/

structure CitiSt where
  inSec : Bool
  inPay : Bool
  card : Option (List Char)
  pending : Option (List Char)
  skipNext : Bool
  out : List Txn
deriving Repr

def citiInit : CitiSt := ⟨false, false, none, none, false, []⟩

def lineAt (lines : List (List Char)) (j : Nat) : List Char := lines.getD j []

/-- `str(int(year) - 1)` (the year string is all digits at every call
site). -/
def citiPrevYear (year : List Char) : List Char :=
  (toString ((digitsToNat year : ℤ) - 1)).toList

/-- Lines 610–619 (and their copies at 319–322 and 563–566): if the
transaction month exceeds the statement month, rewrite the year part of
the date string to the previous year. -/
def citiAdjustYear (year : List Char) (smNum : Nat) (t : Txn) : Txn :=
  let transMonth := (pyIntNat ((splitOnChar '/' t.dateStr).headD [])).getD 0
  if transMonth > smNum then
    { t with dateStr := replaceAll ('/' :: year) ('/' :: citiPrevYear year) t.dateStr }
  else t

/-- The cardholder-section blocks (lines 237–286; both cardholders run
the same logic). -/
def citiCardholder (name : List Char) (lines : List (List Char)) (i : Nat)
    (line : List Char) (st : CitiSt) : CitiSt :=
  let st := { st with card := some name }
  let nextLine := if i < lines.length - 1 then lineAt lines (i + 1) else []
  if ¬containsSub "cont'd".toList (pyLower nextLine) then
    let nls := pyStrip nextLine
    let st :=
      if startsWithDateMD nls then { st with inSec := true }
      else if pesoPrefixMatch nls then
        let nn := if i + 2 < lines.length then lineAt lines (i + 2) else []
        if startsWithDateMD (pyStrip nn) then { st with inSec := true }
        else { st with inSec := false }
      else { st with inSec := false }
    if ¬containsSub "cont'd".toList (pyLower line) then { st with pending := none }
    else st
  else st

/-- The `MEXICAN PESO` block (lines 291–328). -/
def citiPesoBlock (year : List Char) (smNum : Nat) (tok : List Char) (st : CitiSt) : CitiSt :=
  if st.pending.isSome ∧ ¬st.inPay then
    let amount := citiAmtVal tok
    match st.pending with
    | some pd =>
      match matchDateMDWs pd with   -- `^(\d{1,2}/\d{1,2})\s+(.*)`
      | some (mm, dd, g2) =>
        let description := pyStrip g2
        let description := rewardSub description
        let description := costcoSub description
        let description := pyStrip description
        let txn := citiAdjustYear year smNum
          (citiDC (mm ++ '/' :: dd ++ '/' :: year) description amount)
        { st with pending := none, out := st.out ++ [txn] }
      | none => { st with pending := none }
    | none => { st with pending := none }
  else { st with pending := none }

/-- Section-start condition of lines 335–346. -/
def citiSecStartCond (line stripped : List Char) (st : CitiSt) : Bool :=
  containsSub "Standard Purchases".toList line ||
  (st.card.isSome && containsSub "Purchase".toList line &&
    ¬containsSub "Payments".toList line) ||
  startsWith "Costco Cash Back Rewards".toList stripped ||
  (containsSub "Earned This Period".toList line &&
    ¬containsSub "Earned this period".toList line &&
    ¬startsWithDateMD stripped)

/-- Stop-marker condition of lines 354–363. -/
def citiStopCond (stripped : List Char) : Bool :=
  startsWith "CARDHOLDER SUMMARY".toList stripped ||
  startsWith "Foreign Currency Transactions".toList stripped ||
  startsWith "Interest Charged".toList stripped ||
  startsWith "Fees".toList stripped ||
  startsWith "Year-To-Date Totals".toList stripped ||
  startsWith "2024 Totals Year-to-Date".toList stripped ||
  (startsWith "Costco Cash Back Rewards".toList stripped && ¬startsWithDateMD stripped)

/-- The look-back test shared by the `Total Earned:` logic, the
`date_only` block and the `PENDING_DESCRIPTION` back-search: a stripped
previous line that is non-empty, does not start with a date, is longer
than 5 and does not mention `MEXICAN PESO`. -/
def citiPrevLineOk (pl : List Char) : Bool :=
  pl ≠ [] && ¬startsWithDateMD pl && pl.length > 5 &&
  ¬containsSub "MEXICAN PESO".toList pl

/-- `should_skip_header` (lines 373–419), including the special
`Total Earned:` analysis. -/
def citiShouldSkipHeader (lines : List (List Char)) (i : Nat)
    (line stripped : List Char) : Bool :=
  let base :=
    stripped = [] || containsSub "Sale Post".toList line ||
    containsSub "Date Date Description Amount".toList line ||
    containsSub "Balance:".toList line ||
    containsSub "New Charges".toList line ||
    containsSub "Earned this period".toList line
  if containsSub "Total Earned:".toList line then
    let isValidTransaction :=
      startsWithDateMD stripped &&
      hasDollarAmt (takeUntilSub "Total Earned:".toList stripped)
    let prevIsDescription :=
      decide (i > 0) &&
      (let pl := pyStrip (lineAt lines (i - 1))
       citiPrevLineOk pl && pyIsUpperChar (pl.headD ' '))
    let hasPesoFollowing :=
      (List.range' 1 (min 4 (lines.length - i) - 1)).any
        (fun j => containsSub "MEXICAN PESO".toList (pyStrip (lineAt lines (i + j))))
    if ¬prevIsDescription && ¬hasPesoFollowing && ¬isValidTransaction then true
    else base
  else base

/-- The `date_only` block (lines 431–488).  Returns `some st'` when the
Python code `continue`s, `none` when it falls through (in which case the
state is unchanged). -/
def citiDateOnlyBlock (lines : List (List Char)) (i : Nat)
    (stripped : List Char) (st : CitiSt) : Option CitiSt :=
  match matchDateOptRest stripped with
  | none => none
  | some (mm, dd, extraRaw) =>
    let extra := pyStrip extraRaw
    let hasMerchantName :=
      match merchantMatch extra with
      | some g1 => decide ((pyStrip g1).length > 5)
      | none => false
    if !twoDatesPrefix stripped && !st.inPay && st.pending.isNone && !hasMerchantName then
      let hasAmountInText := hasDollarAmt extra
      let isRewardOrInfoText :=
        containsSub "Total Earned".toList extra ||
        containsSub "on all other".toList extra ||
        (containsSub "for more information".toList (pyLower extra) && ¬hasAmountInText)
      let hasTransactionAmount := hasAmountInText && ¬isRewardOrInfoText
      let looksLikeMerchant :=
        decide (extra.length > 10) &&
        (pyIsUpperChar (extra.headD ' ') || isDigitC (extra.headD ' ')) &&
        decide (((splitWs extra).filter
          (fun w => w ≠ [] && (pyIsUpperChar (w.headD ' ') || isDigitC (w.headD ' ')))).length ≥ 2)
      if ¬hasTransactionAmount ∧ ¬startsWith "AUTOPAY".toList extra ∧
         ¬looksLikeMerchant ∧
         (isRewardOrInfoText ∨ ¬(extra.length > 10 ∧ pyIsUpperChar (extra.headD ' '))) then
        let st :=
          if i > 0 then
            let pl := pyStrip (lineAt lines (i - 1))
            if citiPrevLineOk pl then
              { st with pending := some (mm ++ '/' :: dd ++ ' ' :: pl) }
            else st
          else st
        some st
      else none
    else none

/-- Pattern 1 of the description-only block:
`^\d{1,2}/\d{1,2}\s+\d{1,2}/\d{1,2}\s+(-?\$?[\d,]+\.\d{2})\s*$`. -/
def citiDescNextP1 (s : List Char) : Bool :=
  match matchDateMDWs s with
  | some (_, _, r1) =>
    match matchDateMDWs r1 with
    | some (_, _, r2) =>
      match matchAmountTok r2 with
      | some (_, rest) => rest.dropWhile isWs = []
      | none => false
    | none => false
  | none => false

/-- Pattern 2 of the description-only block:
`^\d{1,2}/\d{1,2}\s+(-?\$?[\d,]+\.\d{2})`. -/
def citiDescNextP2 (s : List Char) : Bool :=
  match matchDateMDWs s with
  | some (_, _, r) => (matchAmountTok r).isSome
  | none => false

/-- The description-only block (lines 500–541): `some` = `continue`,
`none` = fall through with unchanged state. -/
def citiDescOnlyBlock (lines : List (List Char)) (i : Nat)
    (stripped : List Char) (st : CitiSt) : Option CitiSt :=
  if ¬startsWithDateMD stripped ∧ stripped.length > 5 ∧
     ¬startsWith "cont'd".toList (pyLower stripped) ∧
     ¬startsWith "Page ".toList stripped ∧
     pyIsUpperChar (stripped.headD ' ') ∧
     ¬startsWith "www.".toList (pyLower stripped) ∧
     (splitWs stripped).length ≥ 2 then
    if i + 1 < lines.length then
      let nextLine := pyStrip (lineAt lines (i + 1))
      if citiDescNextP1 nextLine then some { st with pending := some stripped }
      else if citiDescNextP2 nextLine then some { st with pending := some stripped }
      else if startsWithDateMD nextLine then
        let hasPesoFollowing :=
          (List.range' 1 (min 5 (lines.length - i) - 1)).any
            (fun j => containsSub "MEXICAN PESO".toList (pyStrip (lineAt lines (i + j))))
        if hasPesoFollowing then
          match matchDateMD nextLine with
          | some (mm, dd, _) =>
            some { st with pending := some (mm ++ '/' :: dd ++ ' ' :: stripped),
                           skipNext := true }
          | none => none
        else none
      else none
    else none
  else none

/-- The pending-description + date-amount block (lines 548–571):
`some` = `continue`, `none` = fall through. -/
def citiPendingAmtBlock (year : List Char) (smNum : Nat)
    (stripped : List Char) (st : CitiSt) : Option CitiSt :=
  match st.pending with
  | some pd =>
    match matchDateMDWs stripped with
    | some (mm, dd, r) =>
      if ¬startsWithDateMD r then        -- the `(?!\d{1,2}/\d{1,2})` lookahead
        match matchAmountTok r with
        | some (tok, _) =>
          let amount := citiAmtVal tok
          let txn := citiAdjustYear year smNum
            (citiDC (mm ++ '/' :: dd ++ '/' :: year) pd amount)
          some { st with pending := none, out := st.out ++ [txn] }
        | none => none
      else none
    | none => none
  | none => none

/-- The final parse block (lines 574–624). -/
def citiParseBlock (year : List Char) (smNum : Nat) (lines : List (List Char))
    (i : Nat) (line stripped : List Char) (st : CitiSt) : CitiSt :=
  match parseCitiTransactionLine line year with
  | .fragment =>
    if st.pending = none then { st with pending := some stripped } else st
  | .found t =>
    let t :=
      if t.descr = "PENDING_DESCRIPTION".toList then
        match st.pending with
        | some pd =>
          match matchDateMDWs pd with   -- `^\d{1,2}/\d{1,2}\s+(.*)`
          | some (_, _, g1) => { t with descr := pyStrip g1 }
          | none => { t with descr := pd }
        | none =>
          match (List.range' (i - 3) (i - (i - 3))).find?
              (fun j => citiPrevLineOk (pyStrip (lineAt lines j))) with
          | some j => { t with descr := pyStrip (lineAt lines j) }
          | none => t
      else t
    let t := citiAdjustYear year smNum t
    { st with pending := none, out := st.out ++ [t] }
  | .nomatched => st

/-- One iteration of the Citi line loop (lines 228–624). -/
def citiStepAt (year : List Char) (smNum : Nat) (lines : List (List Char))
    (i : Nat) (st : CitiSt) : CitiSt :=
  let line := lineAt lines i
  let stripped := pyStrip line
  if st.skipNext then { st with skipNext := false }
  else if containsSub "MANUEL SALAS".toList line ∧
          ¬containsSub "Card ending in".toList line then
    citiCardholder "MANUEL SALAS".toList lines i line st
  else if containsSub "REYNA VARELA".toList line ∧
          ¬containsSub "Card ending in".toList line then
    citiCardholder "REYNA VARELA".toList lines i line st
  else
    match pesoAmtMatch stripped with
    | some tok => citiPesoBlock year smNum tok st
    | none =>
      if containsSub "Payments, Credits and Adjustments".toList line then
        { st with inSec := true, inPay := true }
      else if citiSecStartCond line stripped st then
        { st with inSec := true, inPay := false }
      else if citiStopCond stripped then
        { st with inSec := false, inPay := false, pending := none }
      else if citiShouldSkipHeader lines i line stripped then st
      else
        match citiDateOnlyBlock lines i stripped st with
        | some st' => st'
        | none =>
          if ¬st.inSec then st
          else
            match citiDescOnlyBlock lines i stripped st with
            | some st' => st'
            | none =>
              match citiPendingAmtBlock year smNum stripped st with
              | some st' => st'
              | none => citiParseBlock year smNum lines i line stripped st

/-- Iterate the loop over one page's lines. -/
def citiPageGo (year : List Char) (smNum : Nat) (lines : List (List Char)) :
    Nat → Nat → CitiSt → CitiSt
  | 0, _, st => st
  | fuel + 1, i, st =>
    if i < lines.length then
      citiPageGo year smNum lines fuel (i + 1) (citiStepAt year smNum lines i st)
    else st

def citiPage (year : List Char) (smNum : Nat) (st : CitiSt) (page : List Char) : CitiSt :=
  let lines := splitNL page
  citiPageGo year smNum lines lines.length 0 st

def citiMonthMap : List (List Char × Nat) :=
  [("jan".toList, 1), ("feb".toList, 2), ("mar".toList, 3), ("apr".toList, 4),
   ("may".toList, 5), ("jun".toList, 6), ("jul".toList, 7), ("aug".toList, 8),
   ("sep".toList, 9), ("oct".toList, 10), ("nov".toList, 11), ("dec".toList, 12)]

/-- `month_map.get(statement_month.lower(), 1)` with
`statement_month = group(1) if year_match else "jan"`. -/
def citiStatementMonthNum (filename : List Char) : Nat :=
  let m := match searchDashWordDashYear filename with
    | some (mTok, _) => mTok
    | none => "jan".toList
  match citiMonthMap.lookup (pyLower m) with
  | some n => n
  | none => 1

/-- The collected Citi transaction dicts, in encounter order. -/
def citiTxns (filename : List Char) (pages : List (List Char)) : List Txn :=
  let year := yearOfFilename filename
  let smNum := citiStatementMonthNum filename
  ((pages.filter (fun p => p ≠ [])).foldl (citiPage year smNum) citiInit).out

/-- `CitiFileLoader._extract_transactions_from_pdf`: raises when nothing
was extracted, otherwise converts (`%m/%d/%Y`) and sorts by date. -/
def citiLoad (filename : List Char) (pages : List (List Char)) : Except LoadErr (List Row) :=
  let all := citiTxns filename pages
  if all = [] then .error .noTransactions
  else .ok (sortByDate (all.map (toRow true)))

/-! ## Corrections persistence (`file_persistence.py`)

The corrections tables have exactly the two columns `Description` and
`Category` (see `Corrections.collect_low_acc_corrections`), so a row is a
pair.  The file system is a partial map from filenames to the stored
table; `pd.read_csv` / `to_csv` are modelled as the identity round-trip
on that table. -/

structure CorrDF where
  cols : List String
  rows : List (String × String)
deriving DecidableEq, Repr

/-- `pd.DataFrame(columns=["Description", "Category"])`. -/
def emptyCorrDF : CorrDF := ⟨["Description", "Category"], []⟩

/-- `FilePersistence.load_corrections` on an explicit filename: read the
stored table if the path exists, otherwise return the empty two-column
frame. -/
def loadCorrections (fs : String → Option CorrDF) (filename : String) : CorrDF :=
  match fs filename with
  | some df => df
  | none => emptyCorrDF

/-- `drop_duplicates(subset=["Description", "Category"])` with the
default `keep="first"`: keep the first occurrence of each pair. -/
def dedupKeepFirst {α : Type} [DecidableEq α] : List α → List α :=
  go []
where
  go (seen : List α) : List α → List α
    | [] => []
    | x :: xs => if x ∈ seen then go seen xs else x :: go (x :: seen) xs

/-- The table `FilePersistence.save_corrections` writes: with an existing
file, concatenate the previous table with the new corrections and drop
duplicate pairs; with no file, write the corrections as they are. -/
def saveCorrectionsTable (existing : Option CorrDF) (corrections : CorrDF) : CorrDF :=
  match existing with
  | some prev => ⟨prev.cols, dedupKeepFirst (prev.rows ++ corrections.rows)⟩
  | none => corrections

/-- `FilePersistence.save_corrections` as a file-system transformer. -/
def saveCorrections (fs : String → Option CorrDF) (corrections : CorrDF)
    (filename : String) : String → Option CorrDF :=
  fun f =>
    if f = filename then some (saveCorrectionsTable (fs filename) corrections)
    else fs f

/-! ## Helper lemmas: `dedupKeepFirst` -/

theorem mem_dedupGo {α : Type} [DecidableEq α] (l : List α) (seen : List α) (x : α) :
    x ∈ dedupKeepFirst.go seen l ↔ x ∈ l ∧ x ∉ seen := by
  induction l generalizing seen with
  | nil => simp [dedupKeepFirst.go]
  | cons a t ih =>
    by_cases ha : a ∈ seen
    · rw [show dedupKeepFirst.go seen (a :: t) = dedupKeepFirst.go seen t from by
        simp [dedupKeepFirst.go, ha], ih]
      constructor
      · rintro ⟨hx, hns⟩; exact ⟨List.mem_cons_of_mem _ hx, hns⟩
      · rintro ⟨hx, hns⟩
        rcases List.mem_cons.mp hx with rfl | h
        · exact absurd ha hns
        · exact ⟨h, hns⟩
    · rw [show dedupKeepFirst.go seen (a :: t) = a :: dedupKeepFirst.go (a :: seen) t from by
        simp [dedupKeepFirst.go, ha]]
      constructor
      · intro hmem
        rcases List.mem_cons.mp hmem with rfl | h
        · exact ⟨List.mem_cons_self _ _, ha⟩
        · obtain ⟨hx, hns⟩ := (ih _).mp h
          exact ⟨List.mem_cons_of_mem _ hx, fun hc => hns (List.mem_cons_of_mem _ hc)⟩
      · rintro ⟨hx, hns⟩
        rcases List.mem_cons.mp hx with rfl | h
        · exact List.mem_cons_self _ _
        · by_cases hxa : x = a
          · subst hxa; exact List.mem_cons_self _ _
          · exact List.mem_cons_of_mem _
              ((ih _).mpr ⟨h, fun hc => (List.mem_cons.mp hc).elim hxa hns⟩)

theorem nodup_dedupGo {α : Type} [DecidableEq α] (l : List α) (seen : List α) :
    (dedupKeepFirst.go seen l).Nodup := by
  induction l generalizing seen with
  | nil => simp [dedupKeepFirst.go]
  | cons a t ih =>
    by_cases ha : a ∈ seen
    · simpa [dedupKeepFirst.go, if_pos ha] using ih seen
    · simp only [dedupKeepFirst.go, if_neg ha]
      refine List.nodup_cons.mpr ⟨fun hc => ?_, ih (a :: seen)⟩
      exact ((mem_dedupGo t (a :: seen) a).mp hc).2 (List.mem_cons_self a seen)

theorem mem_dedupKeepFirst {α : Type} [DecidableEq α] (l : List α) (x : α) :
    x ∈ dedupKeepFirst l ↔ x ∈ l := by
  simpa using mem_dedupGo l [] x

theorem dedupGo_absorb {α : Type} [DecidableEq α] (l seen : List α)
    (h : ∀ x ∈ l, x ∈ seen) : dedupKeepFirst.go seen l = [] := by
  induction l with
  | nil => rfl
  | cons a t ih =>
    have ha : a ∈ seen := h a (.head _)
    simp only [dedupKeepFirst.go, if_pos ha]
    exact ih (fun x hx => h x (.tail _ hx))

theorem dedupGo_append_stable {α : Type} [DecidableEq α] (c : List α) :
    ∀ (D seen : List α), D.Nodup → (∀ x ∈ D, x ∉ seen) →
      (∀ x ∈ c, x ∈ D ∨ x ∈ seen) → dedupKeepFirst.go seen (D ++ c) = D := by
  intro D
  induction D with
  | nil =>
    intro seen _ _ hc
    simpa using dedupGo_absorb c seen
      (fun x hx => (hc x hx).elim (fun h => absurd h (List.not_mem_nil x)) id)
  | cons d D' ih =>
    intro seen hnd hseen hc
    have hd : d ∉ seen := hseen d (List.mem_cons_self _ _)
    rw [List.cons_append,
      show dedupKeepFirst.go seen (d :: (D' ++ c)) =
        d :: dedupKeepFirst.go (d :: seen) (D' ++ c) from by
          simp [dedupKeepFirst.go, hd]]
    congr 1
    refine ih (d :: seen) (List.nodup_cons.mp hnd).2 (fun x hx hmem => ?_) (fun x hx => ?_)
    · rcases List.mem_cons.mp hmem with rfl | h
      · exact (List.nodup_cons.mp hnd).1 hx
      · exact hseen x (List.mem_cons_of_mem _ hx) h
    · rcases hc x hx with h | h
      · rcases List.mem_cons.mp h with rfl | h'
        · exact Or.inr (List.mem_cons_self _ _)
        · exact Or.inl h'
      · exact Or.inr (List.mem_cons_of_mem _ h)

/-- Saving the same corrections onto an already-deduplicated store is the
identity on the stored row list. -/
theorem dedupKeepFirst_resave {α : Type} [DecidableEq α] (prev c : List α) :
    dedupKeepFirst (dedupKeepFirst (prev ++ c) ++ c) = dedupKeepFirst (prev ++ c) := by
  refine dedupGo_append_stable c _ [] (nodup_dedupGo _ _) (by simp) (fun x hx => ?_)
  exact Or.inl ((mem_dedupKeepFirst _ _).mpr (List.mem_append.mpr (Or.inr hx)))

/-! ## Claim C8 -/

/-- C8: the corrections store is append-only and de-duplicated on the
exact `(Description, Category)` pair: after `save_corrections` onto an
existing file, the stored table holds exactly the union of the previous
pairs and the new ones, with no duplicate pair; and saving the same
corrections a second time leaves the stored table unchanged
(idempotence). -/
theorem c8_corrections_append_dedup_idempotent
    (fs : String → Option CorrDF) (prev c : CorrDF) (filename : String)
    (h : fs filename = some prev) :
    ∃ stored : CorrDF,
      saveCorrections fs c filename filename = some stored ∧
      (∀ p, p ∈ stored.rows ↔ p ∈ prev.rows ∨ p ∈ c.rows) ∧
      stored.rows.Nodup ∧
      saveCorrections (saveCorrections fs c filename) c filename filename = some stored := by
  refine ⟨⟨prev.cols, dedupKeepFirst (prev.rows ++ c.rows)⟩, ?_, ?_, ?_, ?_⟩
  · simp [saveCorrections, saveCorrectionsTable, h]
  · intro p
    simpa using (mem_dedupKeepFirst (prev.rows ++ c.rows) p).trans List.mem_append
  · exact nodup_dedupGo _ _
  · simp only [saveCorrections, if_pos rfl, h, saveCorrectionsTable]
    exact congrArg some (congrArg (CorrDF.mk prev.cols) (dedupKeepFirst_resave prev.rows c.rows))

/-- C8 witness: a concrete store holding `("AMAZON", "Shopping")` and a
duplicate-carrying new corrections frame. -/
theorem c8_corrections_append_dedup_idempotent_witness :
    (fun f => if f = "corrections.csv" then
        some (⟨["Description", "Category"], [("AMAZON", "Shopping")]⟩ : CorrDF)
      else none) "corrections.csv" =
      some (⟨["Description", "Category"], [("AMAZON", "Shopping")]⟩ : CorrDF) ∧
    ∃ stored : CorrDF,
      saveCorrections
        (fun f => if f = "corrections.csv" then
            some ⟨["Description", "Category"], [("AMAZON", "Shopping")]⟩
          else none)
        ⟨["Description", "Category"], [("OXXO", "Food"), ("AMAZON", "Shopping")]⟩
        "corrections.csv" "corrections.csv" = some stored ∧
      (∀ p, p ∈ stored.rows ↔
        p ∈ [(("AMAZON" : String), ("Shopping" : String))] ∨
        p ∈ [(("OXXO" : String), ("Food" : String)), ("AMAZON", "Shopping")]) ∧
      stored.rows.Nodup ∧
      saveCorrections
        (saveCorrections
          (fun f => if f = "corrections.csv" then
              some ⟨["Description", "Category"], [("AMAZON", "Shopping")]⟩
            else none)
          ⟨["Description", "Category"], [("OXXO", "Food"), ("AMAZON", "Shopping")]⟩
          "corrections.csv")
        ⟨["Description", "Category"], [("OXXO", "Food"), ("AMAZON", "Shopping")]⟩
        "corrections.csv" "corrections.csv" = some stored :=
  ⟨by decide,
   c8_corrections_append_dedup_idempotent
     (fun f => if f = "corrections.csv" then
         some ⟨["Description", "Category"], [("AMAZON", "Shopping")]⟩
       else none)
     ⟨["Description", "Category"], [("AMAZON", "Shopping")]⟩
     ⟨["Description", "Category"], [("OXXO", "Food"), ("AMAZON", "Shopping")]⟩
     "corrections.csv" (by decide)⟩

/-! ## Claim C9 -/

theorem lookup_eq_none_of_forall {α β : Type} [BEq α] [LawfulBEq α]
    (l : List (α × β)) (k : α) (h : ∀ p ∈ l, k ≠ p.1) : l.lookup k = none := by
  induction l with
  | nil => rfl
  | cons a t ih =>
    obtain ⟨a1, a2⟩ := a
    have hk : (k == a1) = false :=
      beq_eq_false_iff_ne.mpr (h (a1, a2) (List.mem_cons_self _ _))
    simp only [List.lookup, hk]
    exact ih (fun p hp => h p (List.mem_cons_of_mem _ hp))

/-- C9: for every month-abbreviation string that is not one of the twelve
Spanish abbreviations (case-insensitively, i.e. after `.upper()`), the
Banamex month parser returns `"01"` — the transaction is silently dated
in January. -/
theorem c9_unknown_month_abbrev_is_january
    (s : List Char) (h : ∀ p ∈ bmxMonths, pyUpper s ≠ p.1) :
    parseMonthAbbrev s = "01".toList := by
  unfold parseMonthAbbrev
  rw [lookup_eq_none_of_forall bmxMonths (pyUpper s) h]

/-- C9 witness: the unknown abbreviation `XYZ` maps to January. -/
theorem c9_unknown_month_abbrev_is_january_witness :
    (∀ p ∈ bmxMonths, pyUpper "XYZ".toList ≠ p.1) ∧
    parseMonthAbbrev "XYZ".toList = "01".toList :=
  ⟨by decide, c9_unknown_month_abbrev_is_january _ (by decide)⟩

/-! ## Claim C10 -/

/-- C10: `load_corrections` on a filename that does not exist returns the
empty two-column table with columns `(Description, Category)` rather than
raising, and the result coincides with loading from a store that holds an
empty corrections table at that filename. -/
theorem c10_load_corrections_missing_file
    (fs : String → Option CorrDF) (filename : String) (h : fs filename = none) :
    loadCorrections fs filename = emptyCorrDF ∧
    (loadCorrections fs filename).cols = ["Description", "Category"] ∧
    (loadCorrections fs filename).rows = [] ∧
    loadCorrections fs filename =
      loadCorrections (fun f => if f = filename then some emptyCorrDF else fs f) filename := by
  have hl : loadCorrections fs filename = emptyCorrDF := by
    simp [loadCorrections, h]
  refine ⟨hl, by rw [hl]; rfl, by rw [hl]; rfl, ?_⟩
  rw [hl]
  simp [loadCorrections]

/-- C10 witness: the empty file system. -/
theorem c10_load_corrections_missing_file_witness :
    ((fun _ => none : String → Option CorrDF) "corrections.csv" = none) ∧
    loadCorrections (fun _ => none) "corrections.csv" = emptyCorrDF ∧
    loadCorrections (fun _ => none) "corrections.csv" =
      loadCorrections (fun f => if f = "corrections.csv" then some emptyCorrDF else none)
        "corrections.csv" := by
  refine ⟨rfl, ?_, ?_⟩
  · exact (c10_load_corrections_missing_file (fun _ => none) "corrections.csv" rfl).1
  · exact (c10_load_corrections_missing_file (fun _ => none) "corrections.csv" rfl).2.2.2

/-! ## Emission lemma for `_add_transaction` -/

/-- With a meaningful description and at least two resolved amounts,
`_add_transaction` emits a record: first amount converted on the side
chosen by `bmxIsCredit`, last amount as the new `previous_balance`. -/
theorem bmxAdd_emit (t : BmxPending) (prevBal : Option ℚ) (year : List Char)
    (hd : pyStrip (joinSpace t.descLines) ≠ [])
    (hs : containsSub "SALDO ANTERIOR".toList
            (pyUpper (pyStrip (joinSpace t.descLines))) = false)
    (hlen : 2 ≤ t.amounts.length) :
    bmxAddTransaction t prevBal year =
      (some (t.amounts.getLastD 0),
       some { dateStr := t.day ++ '/' :: t.month ++ '/' :: year
              descr := pyStrip (joinSpace t.descLines)
              debit := if bmxIsCredit (pyStrip (joinSpace t.descLines)) prevBal
                          (t.amounts.getLastD 0) then none
                       else convertToDollars (some (t.amounts.headD 0))
              credit := if bmxIsCredit (pyStrip (joinSpace t.descLines)) prevBal
                          (t.amounts.getLastD 0) then
                          convertToDollars (some (t.amounts.headD 0))
                        else none }) := by
  have hne : ¬t.amounts = [] := by
    intro he; rw [he] at hlen; simp at hlen
  have hds : ¬(pyStrip (joinSpace t.descLines) = [] ∨
      containsSub "SALDO ANTERIOR".toList
        (pyUpper (pyStrip (joinSpace t.descLines))) = true) := by
    rintro (h | h)
    · exact hd h
    · rw [hs] at h; exact Bool.false_ne_true h
  have hl1 : ¬t.amounts.length = 1 := by omega
  simp only [bmxAddTransaction]
  rw [if_neg hne, if_neg hds, if_neg hl1]

/-! ## Claim C6 -/

/-- C6: Banamex (the one currency-converting format) converts every
resolved amount exactly once at emission time via
`round(raw / 18.5, 2)`: any transaction emitted by `_add_transaction`
carries `convertToDollars` of the first resolved amount on the populated
side; `185.00` converts to `10.00`; a null amount stays null. -/
theorem c6_banamex_conversion (t : BmxPending) (prevBal : Option ℚ)
    (year : List Char) (tx : Txn)
    (h : (bmxAddTransaction t prevBal year).2 = some tx) :
    ((tx.debit = convertToDollars (some (t.amounts.headD 0)) ∧ tx.credit = none) ∨
     (tx.credit = convertToDollars (some (t.amounts.headD 0)) ∧ tx.debit = none)) ∧
    (∀ q : ℚ, convertToDollars (some q) = some (round2 (q / PESO_TO_DOLLAR_RATE))) ∧
    convertToDollars (some 185) = some 10 ∧
    convertToDollars none = none := by
  refine ⟨?_, fun q => rfl, by decide, rfl⟩
  simp only [bmxAddTransaction] at h
  by_cases h1 : t.amounts = []
  · rw [if_pos h1] at h; simp at h
  · rw [if_neg h1] at h
    by_cases h2 : pyStrip (joinSpace t.descLines) = [] ∨
        containsSub "SALDO ANTERIOR".toList
          (pyUpper (pyStrip (joinSpace t.descLines))) = true
    · rw [if_pos h2] at h
      by_cases h3 : t.amounts.length = 1
      · rw [if_pos h3] at h; simp at h
      · rw [if_neg h3] at h; simp at h
    · rw [if_neg h2] at h
      by_cases h3 : t.amounts.length = 1
      · rw [if_pos h3] at h; simp at h
      · rw [if_neg h3] at h
        simp only [Prod.snd, Option.some.injEq] at h
        subst h
        cases hic : bmxIsCredit (pyStrip (joinSpace t.descLines)) prevBal
            (t.amounts.getLastD 0) with
        | false => left; simp only [hic]; simp
        | true => right; simp only [hic]; simp

/-- C6 witness: a two-amount Banamex transaction with raw amount 185
emits a debit of 10 dollars. -/
theorem c6_banamex_conversion_witness :
    (bmxAddTransaction ⟨"02".toList, "01".toList, ["COMPRA OXXO".toList], [185, 500]⟩
        none "2025".toList).2 =
      some ⟨"02/01/2025".toList, "COMPRA OXXO".toList, some 10, none⟩ ∧
    ((some 10 = convertToDollars (some (([185, 500] : List ℚ).headD 0)) ∧
        (none : Option ℚ) = none) ∨
     ((none : Option ℚ) = convertToDollars (some (([185, 500] : List ℚ).headD 0)) ∧
        some 10 = (none : Option ℚ))) := by
  constructor
  · decide
  · have := c6_banamex_conversion
      ⟨"02".toList, "01".toList, ["COMPRA OXXO".toList], [185, 500]⟩ none "2025".toList
      ⟨"02/01/2025".toList, "COMPRA OXXO".toList, some 10, none⟩ (by decide)
    simpa using this.1

/-! ## Claim C5 -/

/-- C5: Banamex direction classification in priority order — with a
credit keyword in the (upper-cased) description the transaction is a
credit; with no keyword and a previous balance available it is a credit
exactly when the resolved balance exceeds `previous_balance`, and a debit
otherwise. -/
theorem c5_banamex_direction (t : BmxPending) (pb : ℚ) (year : List Char)
    (hd : pyStrip (joinSpace t.descLines) ≠ [])
    (hs : containsSub "SALDO ANTERIOR".toList
            (pyUpper (pyStrip (joinSpace t.descLines))) = false)
    (hlen : 2 ≤ t.amounts.length) :
    (bmxCreditKeywords.any
        (fun kw => containsSub kw (pyUpper (pyStrip (joinSpace t.descLines)))) = true →
      ∃ tx, (bmxAddTransaction t (some pb) year).2 = some tx ∧
        tx.credit = convertToDollars (some (t.amounts.headD 0)) ∧ tx.debit = none) ∧
    (bmxCreditKeywords.any
        (fun kw => containsSub kw (pyUpper (pyStrip (joinSpace t.descLines)))) = false →
      ∃ tx, (bmxAddTransaction t (some pb) year).2 = some tx ∧
        (pb < t.amounts.getLastD 0 →
          tx.credit = convertToDollars (some (t.amounts.headD 0)) ∧ tx.debit = none) ∧
        (¬pb < t.amounts.getLastD 0 →
          tx.debit = convertToDollars (some (t.amounts.headD 0)) ∧ tx.credit = none)) := by
  have he := bmxAdd_emit t (some pb) year hd hs hlen
  constructor
  · intro hkw
    have hic : bmxIsCredit (pyStrip (joinSpace t.descLines)) (some pb)
        (t.amounts.getLastD 0) = true := by
      rw [bmxIsCredit, if_pos hkw]
    refine ⟨_, by rw [he], ?_, ?_⟩ <;> (simp only [hic]; simp)
  · intro hkw
    have hic : bmxIsCredit (pyStrip (joinSpace t.descLines)) (some pb)
        (t.amounts.getLastD 0) = decide (pb < t.amounts.getLastD 0) := by
      rw [bmxIsCredit, if_neg (by simp [hkw])]
    refine ⟨_, by rw [he], ?_, ?_⟩
    · intro hlt
      have hic' : bmxIsCredit (pyStrip (joinSpace t.descLines)) (some pb)
          (t.amounts.getLastD 0) = true := by
        rw [hic]; exact decide_eq_true hlt
      simp only [hic']; simp
    · intro hlt
      have hic' : bmxIsCredit (pyStrip (joinSpace t.descLines)) (some pb)
          (t.amounts.getLastD 0) = false := by
        rw [hic]; exact decide_eq_false hlt
      simp only [hic']; simp

/-- C5 witness: with previous balance 100 and resolved balance 150 and no
keyword the transaction is a credit; with previous balance 150 and
resolved balance 100 it is a debit. -/
theorem c5_banamex_direction_witness :
    (∃ tx, (bmxAddTransaction ⟨"03".toList, "01".toList, ["BAR".toList], [60, 150]⟩
        (some 100) "2025".toList).2 = some tx ∧
      ((100 : ℚ) < (([60, 150] : List ℚ).getLastD 0) →
        tx.credit = convertToDollars (some (([60, 150] : List ℚ).headD 0)) ∧ tx.debit = none) ∧
      (¬(100 : ℚ) < (([60, 150] : List ℚ).getLastD 0) →
        tx.debit = convertToDollars (some (([60, 150] : List ℚ).headD 0)) ∧ tx.credit = none)) ∧
    (∃ tx, (bmxAddTransaction ⟨"04".toList, "01".toList, ["BAR".toList], [60, 100]⟩
        (some 150) "2025".toList).2 = some tx ∧
      ((150 : ℚ) < (([60, 100] : List ℚ).getLastD 0) →
        tx.credit = convertToDollars (some (([60, 100] : List ℚ).headD 0)) ∧ tx.debit = none) ∧
      (¬(150 : ℚ) < (([60, 100] : List ℚ).getLastD 0) →
        tx.debit = convertToDollars (some (([60, 100] : List ℚ).headD 0)) ∧ tx.credit = none)) := by
  constructor
  · exact (c5_banamex_direction ⟨"03".toList, "01".toList, ["BAR".toList], [60, 150]⟩
      100 "2025".toList (by decide) (by decide) (by decide)).2 (by decide)
  · exact (c5_banamex_direction ⟨"04".toList, "01".toList, ["BAR".toList], [60, 100]⟩
      150 "2025".toList (by decide) (by decide) (by decide)).2 (by decide)

/-! ## Claim C4 -/

/-- C4 counterexample: a Wells Fargo line with three amounts
`10.00 20.00 30.00` resolves to transaction amount `20.00` — the
second-to-last — not the first (`10.00`) as the claim's `≥3` rule
states. -/
theorem c4_counterexample_wf_three_amounts :
    parseWellsfargoTransactionLine "1/2 Foo 10.00 20.00 30.00".toList "2025".toList =
      some ⟨"1/2/2025".toList, "Foo".toList, some 20, none⟩ ∧ (20 : ℚ) ≠ 10 := by
  constructor <;> decide

/-- C4 (amended): finalization of the accumulated amounts list — 0
amounts discards the transaction (both formats); exactly 1 amount is
format-configurable (Banamex discards it, Wells Fargo uses it as the
transaction amount with no balance tracked); with 2 or more amounts
Banamex takes the first as the transaction amount and the last as the
running balance, while Wells Fargo takes the second-to-last as the
transaction amount (so for exactly 2 both use the first) and tracks no
balance. -/
theorem c4_amount_resolution (t : BmxPending) (prevBal : Option ℚ) (year : List Char)
    (hd : pyStrip (joinSpace t.descLines) ≠ [])
    (hs : containsSub "SALDO ANTERIOR".toList
            (pyUpper (pyStrip (joinSpace t.descLines))) = false) :
    (t.amounts = [] → bmxAddTransaction t prevBal year = (prevBal, none)) ∧
    (t.amounts.length = 1 → bmxAddTransaction t prevBal year = (prevBal, none)) ∧
    (2 ≤ t.amounts.length →
      (bmxAddTransaction t prevBal year).1 = some (t.amounts.getLastD 0) ∧
      ∃ tx, (bmxAddTransaction t prevBal year).2 = some tx ∧
        (tx.debit = convertToDollars (some (t.amounts.headD 0)) ∨
         tx.credit = convertToDollars (some (t.amounts.headD 0)))) ∧
    (∀ a : List Char, wfTransactionAmount [a] = pyFloat (replaceAll [','] [] a)) ∧
    (∀ a b : List Char, wfTransactionAmount [a, b] = pyFloat (replaceAll [','] [] a)) ∧
    (∀ a b c : List Char, wfTransactionAmount [a, b, c] = pyFloat (replaceAll [','] [] b)) ∧
    (∀ line yr mm dd rest, matchDateMDWs (pyStrip line) = some (mm, dd, rest) →
      scanAmts2 rest = [] → parseWellsfargoTransactionLine line yr = none) ∧
    (∀ line yr tx, parseWellsfargoTransactionLine line yr = some tx →
      ∃ mm dd rest, matchDateMDWs (pyStrip line) = some (mm, dd, rest) ∧
        ((tx.debit = some (wfTransactionAmount (scanAmts2 rest)) ∧ tx.credit = none) ∨
         (tx.credit = some (wfTransactionAmount (scanAmts2 rest)) ∧ tx.debit = none))) := by
  have hds : ¬(pyStrip (joinSpace t.descLines) = [] ∨
      containsSub "SALDO ANTERIOR".toList
        (pyUpper (pyStrip (joinSpace t.descLines))) = true) := by
    rintro (h | h)
    · exact hd h
    · rw [hs] at h; exact Bool.false_ne_true h
  refine ⟨?_, ?_, ?_, ?_, ?_, ?_, ?_, ?_⟩
  · intro h0
    simp [bmxAddTransaction, h0]
  · intro h1
    have hne : ¬t.amounts = [] := by
      intro he; rw [he] at h1; simp at h1
    simp only [bmxAddTransaction]
    rw [if_neg hne, if_neg hds, if_pos h1]
  · intro hlen
    rw [bmxAdd_emit t prevBal year hd hs hlen]
    refine ⟨rfl, _, rfl, ?_⟩
    cases bmxIsCredit (pyStrip (joinSpace t.descLines)) prevBal (t.amounts.getLastD 0) with
    | false => left; simp
    | true => right; simp
  · intro a; simp [wfTransactionAmount]
  · intro a b; simp [wfTransactionAmount]
  · intro a b c; simp [wfTransactionAmount]
  · intro line yr mm dd rest hm hscan
    simp only [parseWellsfargoTransactionLine, hm, hscan]
    by_cases hr : rest = [] <;> simp [hr]
  · intro line yr tx h
    simp only [parseWellsfargoTransactionLine] at h
    cases hm : matchDateMDWs (pyStrip line) with
    | none => rw [hm] at h; exact absurd h (by simp)
    | some v =>
      obtain ⟨mm, dd, rest⟩ := v
      simp only [hm] at h
      refine ⟨mm, dd, rest, rfl, ?_⟩
      by_cases hr : rest = []
      · rw [if_pos hr] at h; exact absurd h (by simp)
      · rw [if_neg hr] at h
        by_cases hsc : scanAmts2 rest = []
        · rw [if_pos hsc] at h; exact absurd h (by simp)
        · rw [if_neg hsc] at h
          rw [Option.some.injEq] at h
          subst h
          by_cases hcred : wfCreditKeywords.any
              (fun kw => containsSub kw
                (pyLower (normSpaces ((scanAmts2 rest).foldl
                  (fun d amt => pyStrip (replaceAll amt [] d)) rest)))) = true
          · right; simp only [hcred]; simp
          · left
            rw [Bool.not_eq_true] at hcred
            simp only [hcred]; simp

/-- C4 witness: concrete Banamex pendings with 0, 1, 2 and 3 amounts and
concrete Wells Fargo amount lists. -/
theorem c4_amount_resolution_witness :
    (([] : List ℚ) = [] →
      bmxAddTransaction ⟨"05".toList, "01".toList, ["FOO".toList], []⟩ (some 7) "2025".toList =
        (some 7, none)) ∧
    (([40] : List ℚ).length = 1 →
      bmxAddTransaction ⟨"05".toList, "01".toList, ["FOO".toList], [40]⟩ (some 7) "2025".toList =
        (some 7, none)) ∧
    (2 ≤ ([185, 500, 600] : List ℚ).length →
      (bmxAddTransaction ⟨"05".toList, "01".toList, ["FOO".toList], [185, 500, 600]⟩
          (some 7) "2025".toList).1 = some (([185, 500, 600] : List ℚ).getLastD 0) ∧
      ∃ tx, (bmxAddTransaction ⟨"05".toList, "01".toList, ["FOO".toList], [185, 500, 600]⟩
          (some 7) "2025".toList).2 = some tx ∧
        (tx.debit = convertToDollars (some (([185, 500, 600] : List ℚ).headD 0)) ∨
         tx.credit = convertToDollars (some (([185, 500, 600] : List ℚ).headD 0)))) := by
  have h := c4_amount_resolution ⟨"05".toList, "01".toList, ["FOO".toList], []⟩
    (some 7) "2025".toList (by decide) (by decide)
  have h1 := c4_amount_resolution ⟨"05".toList, "01".toList, ["FOO".toList], [40]⟩
    (some 7) "2025".toList (by decide) (by decide)
  have h2 := c4_amount_resolution ⟨"05".toList, "01".toList, ["FOO".toList], [185, 500, 600]⟩
    (some 7) "2025".toList (by decide) (by decide)
  exact ⟨fun _ => h.1 rfl, fun _ => h1.2.1 rfl, fun _ => h2.2.2.1 (by decide)⟩

deriving instance DecidableEq for Except

/-! ## Claim C7 -/

/-- C7: extracting zero transactions is format-dependent — Banamex
returns an empty table, while Chase, Citi and Wells Fargo raise a fatal
"no transactions found" error. -/
theorem c7_zero_transactions_policy (filename : List Char) (pages : List (List Char)) :
    (bmxTxns filename pages = .ok [] → bmxLoad filename pages = .ok []) ∧
    (chaseTxns filename pages = [] → chaseLoad filename pages = .error .noTransactions) ∧
    (citiTxns filename pages = [] → citiLoad filename pages = .error .noTransactions) ∧
    (wfTxns filename pages = [] → wfLoad filename pages = .error .noTransactions) := by
  refine ⟨?_, ?_, ?_, ?_⟩ <;> intro h
  · simp [bmxLoad, h]
  · simp [chaseLoad, h]
  · simp [citiLoad, h]
  · simp [wfLoad, h]

/-- C7 witness: the empty document extracts zero transactions in all four
formats. -/
theorem c7_zero_transactions_policy_witness :
    (bmxTxns "f".toList [] = .ok [] ∧ bmxLoad "f".toList [] = .ok []) ∧
    (chaseTxns "f".toList [] = [] ∧ chaseLoad "f".toList [] = .error .noTransactions) ∧
    (citiTxns "f".toList [] = [] ∧ citiLoad "f".toList [] = .error .noTransactions) ∧
    (wfTxns "f".toList [] = [] ∧ wfLoad "f".toList [] = .error .noTransactions) := by
  have h := c7_zero_transactions_policy "f".toList []
  exact ⟨⟨by decide, h.1 (by decide)⟩, ⟨by decide, h.2.1 (by decide)⟩,
         ⟨by decide, h.2.2.1 (by decide)⟩, ⟨by decide, h.2.2.2 (by decide)⟩⟩

/-! ## Helper lemmas: characters, strips, replacements -/

theorem mem_pyStrip {a : Char} {s : List Char} (h : a ∈ pyStrip s) : a ∈ s := by
  unfold pyStrip at h
  have h1 := List.mem_reverse.mp h
  have h2 := (List.dropWhile_sublist isWs).mem h1
  have h3 := List.mem_reverse.mp h2
  exact (List.dropWhile_sublist isWs).mem h3

theorem mem_replaceAllF_empty {old : List Char} {a : Char} :
    ∀ (fuel : Nat) (s : List Char), a ∈ replaceAllF old [] fuel s → a ∈ s := by
  intro fuel
  induction fuel with
  | zero => intro s h; simpa [replaceAllF] using h
  | succ f ih =>
    intro s h
    match s with
    | [] => simpa [replaceAllF] using h
    | c :: t =>
      simp only [replaceAllF] at h
      split at h
      · simp only [List.nil_append] at h
        exact List.mem_of_mem_drop (ih _ h)
      · rcases List.mem_cons.mp h with rfl | h'
        · exact List.mem_cons_self _ _
        · exact List.mem_cons_of_mem _ (ih _ h')

theorem mem_replaceAll_empty {old : List Char} {a : Char} {s : List Char}
    (h : a ∈ replaceAll old [] s) : a ∈ s :=
  mem_replaceAllF_empty s.length s h

/-! ## Helper lemmas: non-negativity of parsed amounts -/

theorem pyFloatOpt_nonneg {s : List Char} {q : ℚ}
    (hm : '-' ∉ s) (h : pyFloatOpt s = some q) : 0 ≤ q := by
  have hhead : (pyStrip s).headD ' ' ≠ '-' := by
    intro hc
    cases hs : pyStrip s with
    | nil => rw [hs] at hc; exact absurd hc (by decide)
    | cons c r =>
      rw [hs] at hc; simp at hc
      exact hm (mem_pyStrip (hs ▸ (hc ▸ List.mem_cons_self c r)))
  have hsign : (if (pyStrip s).headD ' ' = '-' then (-1 : ℚ) else 1) = 1 := if_neg hhead
  simp only [pyFloatOpt, hsign] at h
  split_ifs at h <;>
    first
      | (rw [Option.some.injEq] at h; subst h; rw [one_mul]; positivity)
      | exact absurd h (by simp)

theorem pyFloat_nonneg {s : List Char} (hm : '-' ∉ s) : 0 ≤ pyFloat s := by
  unfold pyFloat
  cases h : pyFloatOpt s with
  | none => simp
  | some q => simpa using pyFloatOpt_nonneg hm h

theorem rne_nonneg {q : ℚ} (h : 0 ≤ q) : 0 ≤ rne q := by
  have hf : 0 ≤ ⌊q⌋ := Int.floor_nonneg.mpr h
  simp only [rne]
  split_ifs <;> omega

theorem round2_nonneg {q : ℚ} (h : 0 ≤ q) : 0 ≤ round2 q := by
  unfold round2
  have : (0 : ℚ) ≤ (rne (q * 100) : ℚ) := by
    exact_mod_cast rne_nonneg (by positivity)
  positivity

theorem convertToDollars_nonneg {q r : ℚ} (hq : 0 ≤ q)
    (h : convertToDollars (some q) = some r) : 0 ≤ r := by
  simp only [convertToDollars, Option.some.injEq] at h
  subst h
  exact round2_nonneg (div_nonneg hq (by norm_num [PESO_TO_DOLLAR_RATE]))

/-! ## Helper lemmas: scanner tokens carry no minus sign -/

theorem isDigitComma_ne_minus {c : Char} (h : isDigitComma c = true) : c ≠ '-' := by
  intro hc; subst hc; exact absurd h (by decide)

theorem isDigitC_ne_minus {c : Char} (h : isDigitC c = true) : c ≠ '-' := by
  intro hc; subst hc; exact absurd h (by decide)

theorem isWs_ne_minus {c : Char} (h : isWs c = true) : c ≠ '-' := by
  intro hc; subst hc; exact absurd h (by decide)

theorem tok2At_noMinus {s tok rest : List Char}
    (h : tok2At s = some (tok, rest)) : '-' ∉ tok := by
  simp only [tok2At] at h
  split_ifs at h with h1 h2
  rw [Option.some.injEq, Prod.mk.injEq] at h
  intro hmem
  rw [← h.1] at hmem
  rcases List.mem_append.mp hmem with hrun | hdot
  · exact isDigitComma_ne_minus (List.mem_takeWhile_imp hrun) rfl
  · rcases List.mem_cons.mp hdot with h0 | h0
    · exact absurd h0.symm (by decide)
    · rcases List.mem_cons.mp h0 with h0 | h0
      · exact isDigitC_ne_minus (h0 ▸ h2.2.1) rfl
      · rcases List.mem_cons.mp h0 with h0 | h0
        · exact isDigitC_ne_minus (h0 ▸ h2.2.2) rfl
        · simp at h0

theorem scanAmts2F_noMinus :
    ∀ (fuel : Nat) (s tok : List Char), tok ∈ scanAmts2F fuel s → '-' ∉ tok := by
  intro fuel
  induction fuel with
  | zero => intro s tok h; simp [scanAmts2F] at h
  | succ f ih =>
    intro s tok h
    match s with
    | [] => simp [scanAmts2F] at h
    | c :: t =>
      simp only [scanAmts2F] at h
      cases ht : tok2At (c :: t) with
      | none => rw [ht] at h; exact ih _ _ h
      | some v =>
        obtain ⟨tok', rest⟩ := v
        rw [ht] at h
        rcases List.mem_cons.mp h with rfl | h'
        · exact tok2At_noMinus ht
        · exact ih _ _ h'

theorem scanAmts2_noMinus {s tok : List Char} (h : tok ∈ scanAmts2 s) : '-' ∉ tok :=
  scanAmts2F_noMinus s.length s tok h

theorem tokBmxAt_noMinus {s tok rest : List Char}
    (h : tokBmxAt s = some (tok, rest)) : '-' ∉ tok := by
  simp only [tokBmxAt] at h
  split_ifs at h with h1 h2 h3 h4
  · rw [Option.some.injEq, Prod.mk.injEq] at h
    intro hmem
    rw [← h.1] at hmem
    rcases List.mem_append.mp hmem with hrun | hdot
    · exact isDigitComma_ne_minus (List.mem_takeWhile_imp hrun) rfl
    · rcases List.mem_cons.mp hdot with h0 | h0
      · exact absurd h0.symm (by decide)
      · rcases List.mem_cons.mp h0 with h0 | h0
        · exact isDigitC_ne_minus (h0 ▸ h2.2) rfl
        · rcases List.mem_cons.mp h0 with h0 | h0
          · exact isDigitC_ne_minus (h0 ▸ h3) rfl
          · simp at h0
  · rw [Option.some.injEq, Prod.mk.injEq] at h
    intro hmem
    rw [← h.1] at hmem
    rcases List.mem_append.mp hmem with hrun | hdot
    · exact isDigitComma_ne_minus (List.mem_takeWhile_imp hrun) rfl
    · rcases List.mem_cons.mp hdot with h0 | h0
      · exact absurd h0.symm (by decide)
      · rcases List.mem_cons.mp h0 with h0 | h0
        · exact isDigitC_ne_minus (h0 ▸ h2.2) rfl
        · rcases List.mem_cons.mp h0 with h0 | h0
          · exact isWs_ne_minus (h0 ▸ h4.1) rfl
          · rcases List.mem_cons.mp h0 with h0 | h0
            · exact isDigitC_ne_minus (h0 ▸ h4.2) rfl
            · simp at h0

theorem scanAmtsBmxF_noMinus :
    ∀ (fuel : Nat) (s tok : List Char), tok ∈ scanAmtsBmxF fuel s → '-' ∉ tok := by
  intro fuel
  induction fuel with
  | zero => intro s tok h; simp [scanAmtsBmxF] at h
  | succ f ih =>
    intro s tok h
    match s with
    | [] => simp [scanAmtsBmxF] at h
    | c :: t =>
      simp only [scanAmtsBmxF] at h
      cases ht : tokBmxAt (c :: t) with
      | none => rw [ht] at h; exact ih _ _ h
      | some v =>
        obtain ⟨tok', rest⟩ := v
        rw [ht] at h
        rcases List.mem_cons.mp h with rfl | h'
        · exact tokBmxAt_noMinus ht
        · exact ih _ _ h'

theorem scanAmtsBmx_noMinus {s tok : List Char} (h : tok ∈ scanAmtsBmx s) : '-' ∉ tok :=
  scanAmtsBmxF_noMinus s.length s tok h

/-! ## Helper lemmas: token shapes -/

theorem all_takeWhile (p : Char → Bool) (l : List Char) :
    (l.takeWhile p).all p = true := by
  rw [List.all_eq_true]
  exact fun a ha => List.mem_takeWhile_imp ha

/-- A 1–2-digit date field. -/
def digits12 (s : List Char) : Prop :=
  s ≠ [] ∧ s.length ≤ 2 ∧ s.all isDigitC = true

theorem matchDateMDWs_shape {s mm dd rest : List Char}
    (h : matchDateMDWs s = some (mm, dd, rest)) : digits12 mm ∧ digits12 dd := by
  simp only [matchDateMDWs] at h
  split_ifs at h with h1 h2 h3 h4 h5
  · rw [Option.some.injEq, Prod.mk.injEq, Prod.mk.injEq] at h
    obtain ⟨rfl, rfl, -⟩ := h
    push_neg at h1
    refine ⟨⟨h1.1, by omega, all_takeWhile _ _⟩, ⟨h3, by omega, all_takeWhile _ _⟩⟩
  · rw [Option.some.injEq, Prod.mk.injEq, Prod.mk.injEq] at h
    obtain ⟨rfl, rfl, -⟩ := h
    push_neg at h1
    refine ⟨⟨h1.1, by omega, all_takeWhile _ _⟩, ⟨?_, ?_, ?_⟩⟩
    · intro hc
      have := congrArg List.length hc
      rw [List.length_take] at this
      simp only [List.length_nil] at this
      omega
    · simpa using List.length_take_le 4 _ |>.trans (by omega) |> fun _ => by
        rw [List.length_take]; omega
    · rw [List.all_eq_true]
      intro a ha
      exact List.mem_takeWhile_imp (List.mem_of_mem_take ha)

theorem chaseEndSplit_noMinus {mid descr tok : List Char}
    (h : chaseEndSplit mid = some (descr, tok)) : '-' ∉ tok := by
  simp only [chaseEndSplit] at h
  split_ifs at h with h1 h2 h3 h4 h5 h6
  · rw [Option.some.injEq, Prod.mk.injEq] at h
    intro hmem
    rw [← h.2] at hmem
    rcases List.mem_append.mp hmem with hrun | hdot
    · exact isDigitComma_ne_minus
        (List.mem_takeWhile_imp (List.mem_reverse.mp hrun)) rfl
    · rcases List.mem_cons.mp hdot with h0 | h0
      · exact absurd h0.symm (by decide)
      · rcases List.mem_cons.mp h0 with h0 | h0
        · exact isDigitC_ne_minus (h0 ▸ h1.2.1) rfl
        · rcases List.mem_cons.mp h0 with h0 | h0
          · exact isDigitC_ne_minus (h0 ▸ h1.1) rfl
          · simp at h0
  · rw [Option.some.injEq, Prod.mk.injEq] at h
    intro hmem
    rw [← h.2] at hmem
    rcases List.mem_append.mp hmem with hrun | hdot
    · exact isDigitComma_ne_minus
        (List.mem_takeWhile_imp (List.mem_reverse.mp hrun)) rfl
    · rcases List.mem_cons.mp hdot with h0 | h0
      · exact absurd h0.symm (by decide)
      · rcases List.mem_cons.mp h0 with h0 | h0
        · exact isDigitC_ne_minus (h0 ▸ h1.2.1) rfl
        · rcases List.mem_cons.mp h0 with h0 | h0
          · exact isDigitC_ne_minus (h0 ▸ h1.1) rfl
          · simp at h0

/-- The year group of the filename pattern: four digits. -/
def yearShape (y : List Char) : Prop := y.length = 4 ∧ y.all isDigitC = true

theorem dashWordDashYearHere_shape {s w y : List Char}
    (h : dashWordDashYearHere s = some (w, y)) : yearShape y := by
  simp only [dashWordDashYearHere] at h
  split_ifs at h with h1 h2 h3
  rw [Option.some.injEq, Prod.mk.injEq] at h
  exact ⟨h.2 ▸ h3.2.1, h.2 ▸ h3.2.2⟩

theorem searchDashWordDashYear_shape :
    ∀ {s w y : List Char}, searchDashWordDashYear s = some (w, y) → yearShape y := by
  intro s
  induction s with
  | nil => intro w y h; simp [searchDashWordDashYear] at h
  | cons c t ih =>
    intro w y h
    simp only [searchDashWordDashYear] at h
    cases hh : dashWordDashYearHere (c :: t) with
    | some g =>
      rw [hh] at h
      rw [Option.some.injEq] at h
      obtain ⟨w', y'⟩ := g
      cases h
      exact dashWordDashYearHere_shape hh
    | none => rw [hh] at h; exact ih h

theorem yearOfFilename_shape (f : List Char) : yearShape (yearOfFilename f) := by
  unfold yearOfFilename
  cases hs : searchDashWordDashYear f with
  | some g =>
    obtain ⟨w, y⟩ := g
    exact searchDashWordDashYear_shape hs
  | none => exact ⟨by decide, by decide⟩

/-! ## The debit/credit exclusivity predicate -/

/-- Exactly one of the two fields holds a non-negative amount. -/
def xorOkB (debit credit : Option ℚ) : Bool :=
  match debit, credit with
  | some a, none => decide (0 ≤ a)
  | none, some a => decide (0 ≤ a)
  | _, _ => false

def txnOkB (t : Txn) : Bool := xorOkB t.debit t.credit

def rowOkB (r : Row) : Bool := xorOkB r.debit r.credit

theorem toRow_ok {t : Txn} (mdy : Bool) (h : txnOkB t = true) :
    rowOkB (toRow mdy t) = true := h

/-! ## Sort membership -/

theorem mem_insertByKey {a x : Row} {l : List Row} :
    a ∈ insertByKey x l ↔ a = x ∨ a ∈ l := by
  induction l with
  | nil => simp [insertByKey]
  | cons y ys ih =>
    simp only [insertByKey]
    split_ifs with hk
    · simp [List.mem_cons]
    · rw [List.mem_cons, ih, List.mem_cons]
      tauto

theorem mem_sortByDate {a : Row} {l : List Row} :
    a ∈ sortByDate l ↔ a ∈ l := by
  induction l with
  | nil => simp [sortByDate]
  | cons x xs ih =>
    simp only [sortByDate]
    rw [mem_insertByKey, ih, List.mem_cons]

/-! ## Chase loader invariants -/

/-- Every parsed Chase line has a non-negative amount and a
`month/day/year` date string. -/
def ChTransOk (year : List Char) (c : ChTrans) : Prop :=
  0 ≤ c.amount ∧ ∃ mm dd, digits12 mm ∧ digits12 dd ∧
    c.dateStr = mm ++ '/' :: dd ++ '/' :: year

theorem parseChase_ok {line year : List Char} {c : ChTrans}
    (h : parseChaseTransactionLine line year = some c) : ChTransOk year c := by
  simp only [parseChaseTransactionLine] at h
  cases hm : matchDateMDWs (pyStrip line) with
  | none => rw [hm] at h; exact absurd h (by simp)
  | some v =>
    obtain ⟨mm, dd, rest⟩ := v
    simp only [hm] at h
    cases hsp : chaseEndSplit rest with
    | none => rw [hsp] at h; exact absurd h (by simp)
    | some w =>
      obtain ⟨descr, tok⟩ := w
      simp only [hsp, Option.some.injEq] at h
      subst h
      obtain ⟨hmm, hdd⟩ := matchDateMDWs_shape hm
      refine ⟨?_, mm, dd, hmm, hdd, rfl⟩
      refine pyFloat_nonneg (fun hc => ?_)
      exact chaseEndSplit_noMinus hsp
        (mem_replaceAll_empty (mem_replaceAll_empty hc))

theorem chaseStep_ok {year : List Char} {st : ChaseSt} (line : List Char)
    (h : ∀ c ∈ st.creditsL ++ st.debitsL, ChTransOk year c) :
    ∀ c ∈ (chaseStep year st line).creditsL ++ (chaseStep year st line).debitsL,
      ChTransOk year c := by
  simp only [chaseStep]
  split_ifs with h1 h2 h3 h4 h5
  · exact h
  · exact h
  · exact h
  · exact h
  · exact h
  · cases hp : parseChaseTransactionLine line year with
    | none => exact h
    | some t =>
      cases hsec : st.sec with
      | none => exact h
      | some sec =>
        cases sec with
        | credits =>
          intro c hc
          rcases List.mem_append.mp hc with hcl | hcl
          · rcases List.mem_append.mp hcl with hcl | hcl
            · exact h c (List.mem_append.mpr (Or.inl hcl))
            · rcases List.mem_cons.mp hcl with rfl | hcl
              · exact parseChase_ok hp
              · simp at hcl
          · exact h c (List.mem_append.mpr (Or.inr hcl))
        | debits =>
          intro c hc
          rcases List.mem_append.mp hc with hcl | hcl
          · exact h c (List.mem_append.mpr (Or.inl hcl))
          · rcases List.mem_append.mp hcl with hcl | hcl
            · exact h c (List.mem_append.mpr (Or.inr hcl))
            · rcases List.mem_cons.mp hcl with rfl | hcl
              · exact parseChase_ok hp
              · simp at hcl

theorem chaseFold_ok {year : List Char} :
    ∀ (lines : List (List Char)) (st : ChaseSt),
      (∀ c ∈ st.creditsL ++ st.debitsL, ChTransOk year c) →
      ∀ c ∈ (lines.foldl (chaseStep year) st).creditsL ++
            (lines.foldl (chaseStep year) st).debitsL, ChTransOk year c := by
  intro lines
  induction lines with
  | nil => intro st h; simpa using h
  | cons l ls ih =>
    intro st h
    rw [List.foldl_cons]
    exact ih _ (chaseStep_ok l h)

/-- Every transaction dict the Chase loader assembles satisfies the
debit/credit exclusivity and carries the document year. -/
theorem chaseTxns_ok {filename : List Char} {pages : List (List Char)} :
    ∀ t ∈ chaseTxns filename pages, txnOkB t = true ∧
      ∃ mm dd, digits12 mm ∧ digits12 dd ∧
        t.dateStr = mm ++ '/' :: dd ++ '/' :: yearOfFilename filename := by
  intro t ht
  have hfold := @chaseFold_ok (yearOfFilename filename)
    (docLines pages) chaseInit (by simp [chaseInit])
  simp only [chaseTxns] at ht
  rcases List.mem_append.mp ht with hm | hm
  · obtain ⟨c, hc, rfl⟩ := List.mem_map.mp hm
    obtain ⟨hamt, mm, dd, hmm, hdd, hds⟩ := hfold c (List.mem_append.mpr (Or.inl hc))
    exact ⟨by simp [txnOkB, xorOkB, hamt], mm, dd, hmm, hdd, hds⟩
  · obtain ⟨c, hc, rfl⟩ := List.mem_map.mp hm
    obtain ⟨hamt, mm, dd, hmm, hdd, hds⟩ := hfold c (List.mem_append.mpr (Or.inr hc))
    exact ⟨by simp [txnOkB, xorOkB, hamt], mm, dd, hmm, hdd, hds⟩

/-! ## Wells Fargo loader invariants -/

theorem wfTransactionAmount_nonneg {amounts : List (List Char)}
    (h : ∀ tok ∈ amounts, '-' ∉ tok) : 0 ≤ wfTransactionAmount amounts := by
  unfold wfTransactionAmount
  split_ifs with hl
  · refine pyFloat_nonneg (fun hc => ?_)
    have hmem := mem_replaceAll_empty hc
    rw [List.getD_eq_getElem?_getD] at hmem
    cases hg : amounts[amounts.length - 2]? with
    | none => rw [hg] at hmem; simp at hmem
    | some a =>
      rw [hg] at hmem
      exact h a (List.getElem?_mem hg) hmem
  · refine pyFloat_nonneg (fun hc => ?_)
    have hmem := mem_replaceAll_empty hc
    cases amounts with
    | nil => simp at hmem
    | cons a t => exact h a (List.mem_cons_self _ _) hmem

/-- Every transaction the Wells Fargo line parser emits satisfies
debit/credit exclusivity and carries the document year. -/
def WfTxnOk (year : List Char) (t : Txn) : Prop :=
  txnOkB t = true ∧ ∃ mm dd, digits12 mm ∧ digits12 dd ∧
    t.dateStr = mm ++ '/' :: dd ++ '/' :: year

theorem parseWF_ok {line year : List Char} {t : Txn}
    (h : parseWellsfargoTransactionLine line year = some t) : WfTxnOk year t := by
  simp only [parseWellsfargoTransactionLine] at h
  cases hm : matchDateMDWs (pyStrip line) with
  | none => rw [hm] at h; exact absurd h (by simp)
  | some v =>
    obtain ⟨mm, dd, rest⟩ := v
    simp only [hm] at h
    by_cases hr : rest = []
    · rw [if_pos hr] at h; exact absurd h (by simp)
    · rw [if_neg hr] at h
      by_cases hsc : scanAmts2 rest = []
      · rw [if_pos hsc] at h; exact absurd h (by simp)
      · rw [if_neg hsc] at h
        rw [Option.some.injEq] at h
        subst h
        obtain ⟨hmm, hdd⟩ := matchDateMDWs_shape hm
        have hamt : 0 ≤ wfTransactionAmount (scanAmts2 rest) :=
          wfTransactionAmount_nonneg (fun tok htok => scanAmts2_noMinus htok)
        refine ⟨?_, mm, dd, hmm, hdd, rfl⟩
        by_cases hcred : wfCreditKeywords.any
            (fun kw => containsSub kw
              (pyLower (normSpaces ((scanAmts2 rest).foldl
                (fun d amt => pyStrip (replaceAll amt [] d)) rest)))) = true
        · simp only [txnOkB, xorOkB, hcred]
          simp [hamt]
        · rw [Bool.not_eq_true] at hcred
          simp only [txnOkB, xorOkB, hcred]
          simp [hamt]

theorem wfFlushPending_ok {year : List Char} {st : WfSt}
    (h : ∀ t ∈ st.out, WfTxnOk year t) :
    ∀ t ∈ (wfFlushPending year st).out, WfTxnOk year t := by
  intro u hu
  simp only [wfFlushPending] at hu
  cases hpd : st.pending with
  | none => rw [hpd] at hu; exact h u hu
  | some pl =>
    simp only [hpd] at hu
    cases hp : parseWellsfargoTransactionLine pl year with
    | none => simp only [hp] at hu; exact h u hu
    | some t =>
      simp only [hp] at hu
      rcases List.mem_append.mp hu with hm | hm
      · exact h u hm
      · rcases List.mem_cons.mp hm with rfl | hm
        · exact parseWF_ok hp
        · simp at hm

theorem wfStep_ok {year : List Char} {st : WfSt} (line : List Char)
    (h : ∀ t ∈ st.out, WfTxnOk year t) :
    ∀ t ∈ (wfStep year st line).out, WfTxnOk year t := by
  intro u hu
  simp only [wfStep] at hu
  by_cases h1 : containsSub "Transaction history".toList line = true
  · rw [if_pos h1] at hu; exact h u hu
  rw [if_neg h1] at hu
  by_cases h2 : startsWith "Totals".toList (pyStrip line) = true
  · rw [if_pos h2] at hu
    exact @wfFlushPending_ok year { st with inSec := false } h u hu
  rw [if_neg h2] at hu
  by_cases h3 : ¬st.inSec = true
  · rw [if_pos h3] at hu; exact h u hu
  rw [if_neg h3] at hu
  by_cases h4 : (containsSub "Date Number Description".toList line ||
      containsSub "Deposits/".toList line ||
      containsSub "Withdrawals/".toList line) = true
  · rw [if_pos h4] at hu; exact h u hu
  rw [if_neg h4] at hu
  by_cases h5 : (matchDateMDWs line).isSome = true
  · rw [if_pos h5] at hu
    cases hp : parseWellsfargoTransactionLine line year with
    | some t =>
      simp only [hp] at hu
      rcases List.mem_append.mp hu with hm | hm
      · exact wfFlushPending_ok h u hm
      · rcases List.mem_cons.mp hm with rfl | hm
        · exact parseWF_ok hp
        · simp at hm
    | none =>
      simp only [hp] at hu
      exact wfFlushPending_ok h u hu
  rw [if_neg h5] at hu
  cases hpd : st.pending with
  | none => rw [hpd] at hu; exact h u hu
  | some pl =>
    simp only [hpd] at hu
    cases hp : parseWellsfargoTransactionLine (pl ++ ' ' :: pyStrip line) year with
    | some t =>
      simp only [hp] at hu
      rcases List.mem_append.mp hu with hm | hm
      · exact h u hm
      · rcases List.mem_cons.mp hm with rfl | hm
        · exact parseWF_ok hp
        · simp at hm
    | none => simp only [hp] at hu; exact h u hu

theorem wfFold_ok {year : List Char} :
    ∀ (lines : List (List Char)) (st : WfSt),
      (∀ t ∈ st.out, WfTxnOk year t) →
      ∀ t ∈ (lines.foldl (wfStep year) st).out, WfTxnOk year t := by
  intro lines
  induction lines with
  | nil => intro st h; simpa using h
  | cons l ls ih =>
    intro st h
    rw [List.foldl_cons]
    exact ih _ (wfStep_ok l h)

theorem wfTxns_ok {filename : List Char} {pages : List (List Char)} :
    ∀ t ∈ wfTxns filename pages, WfTxnOk (yearOfFilename filename) t := by
  intro t ht
  simp only [wfTxns] at ht
  exact wfFlushPending_ok (wfFold_ok (docLines pages) wfInit (by simp [wfInit])) t ht

/-! ## Banamex loader invariants -/

theorem bmxParseAmtSpace_nonneg {a : List Char} (h : '-' ∉ a) :
    0 ≤ bmxParseAmtSpace a :=
  pyFloat_nonneg (fun hc => h (mem_replaceAll_empty (mem_replaceAll_empty hc)))

theorem bmxParseAmtsNoSpace_nonneg :
    ∀ {amounts : List (List Char)} {qs : List ℚ},
      (∀ tok ∈ amounts, '-' ∉ tok) → bmxParseAmtsNoSpace amounts = some qs →
      ∀ q ∈ qs, 0 ≤ q := by
  intro amounts
  induction amounts with
  | nil =>
    intro qs _ h q hq
    simp only [bmxParseAmtsNoSpace, Option.some.injEq] at h
    subst h; simp at hq
  | cons a t ih =>
    intro qs hm h q hq
    simp only [bmxParseAmtsNoSpace] at h
    cases hq1 : pyFloatOpt (replaceAll [','] [] a) with
    | none => rw [hq1] at h; simp at h
    | some q1 =>
      rw [hq1] at h
      cases hqs : bmxParseAmtsNoSpace t with
      | none => rw [hqs] at h; simp at h
      | some qs1 =>
        rw [hqs] at h
        rw [Option.some.injEq] at h
        subst h
        rcases List.mem_cons.mp hq with rfl | hq'
        · exact pyFloatOpt_nonneg
            (fun hc => hm a (List.mem_cons_self _ _) (mem_replaceAll_empty hc)) hq1
        · exact ih (fun tok htok => hm tok (List.mem_cons_of_mem _ htok)) hqs q hq'

/-- Every transaction Banamex emits satisfies debit/credit exclusivity
and carries the document year in the `day/month/year` slot. -/
def BmxTxnOk (year : List Char) (t : Txn) : Prop :=
  txnOkB t = true ∧ ∃ d m, t.dateStr = d ++ '/' :: m ++ '/' :: year

theorem bmxAdd_txn_ok {t : BmxPending} {pb : Option ℚ} {year : List Char} {tx : Txn}
    (hq : ∀ q ∈ t.amounts, 0 ≤ q)
    (h : (bmxAddTransaction t pb year).2 = some tx) : BmxTxnOk year tx := by
  have hhead : 0 ≤ t.amounts.headD 0 := by
    cases ha : t.amounts with
    | nil => simp
    | cons a l => exact hq a (ha ▸ List.mem_cons_self _ _)
  have hconv : 0 ≤ round2 (t.amounts.headD 0 / PESO_TO_DOLLAR_RATE) :=
    round2_nonneg (div_nonneg hhead (by norm_num [PESO_TO_DOLLAR_RATE]))
  simp only [bmxAddTransaction] at h
  by_cases h1 : t.amounts = []
  · rw [if_pos h1] at h; simp at h
  · rw [if_neg h1] at h
    by_cases h2 : pyStrip (joinSpace t.descLines) = [] ∨
        containsSub "SALDO ANTERIOR".toList
          (pyUpper (pyStrip (joinSpace t.descLines))) = true
    · rw [if_pos h2] at h
      by_cases h3 : t.amounts.length = 1
      · rw [if_pos h3] at h; simp at h
      · rw [if_neg h3] at h; simp at h
    · rw [if_neg h2] at h
      by_cases h3 : t.amounts.length = 1
      · rw [if_pos h3] at h; simp at h
      · rw [if_neg h3] at h
        simp only [Prod.snd, Option.some.injEq] at h
        subst h
        refine ⟨?_, t.day, t.month, rfl⟩
        cases hic : bmxIsCredit (pyStrip (joinSpace t.descLines)) pb
            (t.amounts.getLastD 0) with
        | false =>
          simp only [txnOkB, xorOkB, hic]
          simp [convertToDollars]
          simpa using hconv
        | true =>
          simp only [txnOkB, xorOkB, hic]
          simp [convertToDollars]
          simpa using hconv

/-- Invariant of the Banamex loop state. -/
def BmxInv (year : List Char) (st : BmxSt) : Prop :=
  (∀ t ∈ st.out, BmxTxnOk year t) ∧
  ∀ cur, st.current = some cur → ∀ q ∈ cur.amounts, 0 ≤ q

theorem bmxFinalize_inv {year : List Char} {st : BmxSt} (h : BmxInv year st) :
    BmxInv year (bmxFinalize year st) := by
  simp only [bmxFinalize]
  cases hcur : st.current with
  | none => exact h
  | some cur =>
    constructor
    · intro t ht
      rcases List.mem_append.mp ht with hm | hm
      · exact h.1 t hm
      · cases htx : (bmxAddTransaction cur st.prevBalance year).2 with
        | none => rw [htx] at hm; simp at hm
        | some tx =>
          rw [htx] at hm
          rcases List.mem_cons.mp hm with rfl | hm
          · exact bmxAdd_txn_ok (h.2 cur hcur) htx
          · simp at hm
    · intro c hc; simp at hc

theorem bmxStep_inv {year : List Char} {st st' : BmxSt} (line : List Char)
    (h : BmxInv year st) (hs : bmxStep year st line = .ok st') : BmxInv year st' := by
  simp only [bmxStep] at hs
  by_cases h1 : (containsSub "FECHA CONCEPTO".toList line &&
      (containsSub "RETIROS".toList line || containsSub "DEP".toList line)) = true
  · rw [if_pos h1] at hs
    rw [Except.ok.injEq] at hs
    subst hs
    exact ⟨h.1, h.2⟩
  rw [if_neg h1] at hs
  by_cases h2 : (containsSub "Resumen Operaciones".toList line ||
      startsWith "TARJETA ".toList (pyStrip line)) = true
  · rw [if_pos h2] at hs
    rw [Except.ok.injEq] at hs
    subst hs
    have hf := bmxFinalize_inv h
    exact ⟨hf.1, hf.2⟩
  rw [if_neg h2] at hs
  by_cases h3 : ¬st.inSec = true
  · rw [if_pos h3] at hs
    rw [Except.ok.injEq] at hs
    subst hs
    exact h
  rw [if_neg h3] at hs
  by_cases h4 : (startsWith "Pägina ".toList (pyStrip line) ||
      startsWith "Página ".toList (pyStrip line)) = true
  · rw [if_pos h4] at hs
    rw [Except.ok.injEq] at hs
    subst hs
    exact ⟨h.1, h.2⟩
  rw [if_neg h4] at hs
  by_cases h5 : (pyStrip line = [] || containsSub "FECHA CONCEPTO".toList line ||
      startsWith "000".toList (pyStrip line) ||
      containsSub "Detalle de Operaciones".toList line ||
      containsSub "En pesos Moneda Nacional".toList line) = true
  · rw [if_pos h5] at hs
    rw [Except.ok.injEq] at hs
    subst hs
    exact h
  rw [if_neg h5] at hs
  cases hm : matchBmxStart (pyStrip line) with
  | some v =>
    obtain ⟨dayRaw, abk, rest⟩ := v
    simp only [hm, Except.ok.injEq] at hs
    subst hs
    have hf := bmxFinalize_inv h
    refine ⟨hf.1, ?_⟩
    intro c hc
    simp only [Option.some.injEq] at hc
    subst hc
    intro q hq
    obtain ⟨tok, htok, rfl⟩ := List.mem_map.mp hq
    exact bmxParseAmtSpace_nonneg (scanAmtsBmx_noMinus htok)
  | none =>
    simp only [hm] at hs
    cases hcur : st.current with
    | none =>
      rw [hcur] at hs
      rw [Except.ok.injEq] at hs
      subst hs
      exact h
    | some cur =>
      simp only [hcur] at hs
      by_cases h6 : bmxIsMetadata (pyStrip line) = true
      · rw [if_pos h6] at hs
        by_cases h7 : scanAmtsBmx (pyStrip line) ≠ []
        · rw [if_pos h7] at hs
          rw [Except.ok.injEq] at hs
          subst hs
          refine ⟨h.1, ?_⟩
          intro c hc
          simp only [Option.some.injEq] at hc
          subst hc
          intro q hq
          obtain ⟨tok, htok, rfl⟩ := List.mem_map.mp hq
          exact bmxParseAmtSpace_nonneg (scanAmtsBmx_noMinus htok)
        · rw [if_neg h7] at hs
          rw [Except.ok.injEq] at hs
          subst hs
          exact h
      · rw [if_neg h6] at hs
        by_cases h7 : scanAmtsBmx (pyStrip line) ≠ []
        · rw [if_pos h7] at hs
          cases hqs : bmxParseAmtsNoSpace (scanAmtsBmx (pyStrip line)) with
          | none => rw [hqs] at hs; exact absurd hs (by simp)
          | some qs =>
            rw [hqs] at hs
            rw [Except.ok.injEq] at hs
            subst hs
            refine ⟨h.1, ?_⟩
            intro c hc
            simp only [Option.some.injEq] at hc
            subst hc
            exact bmxParseAmtsNoSpace_nonneg
              (fun tok htok => scanAmtsBmx_noMinus htok) hqs
        · rw [if_neg h7] at hs
          rw [Except.ok.injEq] at hs
          subst hs
          refine ⟨h.1, ?_⟩
          intro c hc
          simp only [Option.some.injEq] at hc
          subst hc
          split_ifs
          · exact h.2 cur hcur
          · exact h.2 cur hcur

theorem bmxFoldM_inv {year : List Char} :
    ∀ (lines : List (List Char)) (st st' : BmxSt),
      BmxInv year st → lines.foldlM (bmxStep year) st = .ok st' → BmxInv year st' := by
  intro lines
  induction lines with
  | nil =>
    intro st st' h hf
    simp only [List.foldlM_nil, pure, Except.pure] at hf
    rw [Except.ok.injEq] at hf
    exact hf ▸ h
  | cons l ls ih =>
    intro st st' h hf
    rw [List.foldlM_cons] at hf
    cases hstep : bmxStep year st l with
    | error e =>
      rw [hstep] at hf
      simp only [bind, Except.bind] at hf
      exact absurd hf (by simp)
    | ok st1 =>
      rw [hstep] at hf
      simp only [bind, Except.bind] at hf
      exact ih st1 st' (bmxStep_inv l h hstep) hf

theorem bmxTxns_ok {filename : List Char} {pages : List (List Char)} {all : List Txn}
    (h : bmxTxns filename pages = .ok all) :
    ∀ t ∈ all, BmxTxnOk (yearOfFilename filename) t := by
  simp only [bmxTxns] at h
  cases hf : (docLines pages).foldlM (bmxStep (yearOfFilename filename)) bmxInit with
  | error e => rw [hf] at h; exact absurd h (by simp)
  | ok st =>
    rw [hf] at h
    rw [Except.ok.injEq] at h
    subst h
    have hinv := bmxFoldM_inv (docLines pages) bmxInit st
      (by constructor <;> simp [bmxInit]) hf
    exact (bmxFinalize_inv hinv).1

/-! ## Citi loader invariants -/

theorem citiDC_xor (d s : List Char) (a : ℚ) :
    xorOkB (citiDC d s a).debit (citiDC d s a).credit = true := by
  by_cases ha : a < 0
  · simp only [citiDC, if_pos ha, xorOkB]
    simp [abs_nonneg]
  · simp only [citiDC, if_neg ha, xorOkB]
    simpa using le_of_not_lt ha

theorem citiAdjustYear_debit (year : List Char) (sm : Nat) (t : Txn) :
    (citiAdjustYear year sm t).debit = t.debit := by
  simp only [citiAdjustYear]
  split_ifs <;> rfl

theorem citiAdjustYear_credit (year : List Char) (sm : Nat) (t : Txn) :
    (citiAdjustYear year sm t).credit = t.credit := by
  simp only [citiAdjustYear]
  split_ifs <;> rfl

/-- The transaction shape produced by one of the Citi format matchers. -/
def CitiShape (year : List Char) (t : Txn) : Prop :=
  ∃ mm dd s a, digits12 mm ∧ digits12 dd ∧
    t = citiDC (mm ++ '/' :: dd ++ '/' :: year) s a

/-- Every transaction the Citi loop appends: a `citiDC` record for a
matched `month/day` pair, with the year-rollover adjustment applied. -/
def CitiTxnOk (year : List Char) (sm : Nat) (t : Txn) : Prop :=
  ∃ u, CitiShape year u ∧ t = citiAdjustYear year sm u

theorem CitiTxnOk.xor {year : List Char} {sm : Nat} {t : Txn}
    (h : CitiTxnOk year sm t) : txnOkB t = true := by
  obtain ⟨u, ⟨mm, dd, s, a, -, -, rfl⟩, rfl⟩ := h
  unfold txnOkB
  rw [citiAdjustYear_debit, citiAdjustYear_credit]
  exact citiDC_xor _ _ _

theorem citiDC_descr_update (d s x : List Char) (a : ℚ) :
    { citiDC d s a with descr := x } = citiDC d x a := rfl

theorem CitiShape.descr_update {year : List Char} {t : Txn} (h : CitiShape year t)
    (x : List Char) : CitiShape year { t with descr := x } := by
  obtain ⟨mm, dd, s, a, h1, h2, rfl⟩ := h
  exact ⟨mm, dd, x, a, h1, h2, citiDC_descr_update _ _ _ _⟩

theorem oalt_eq_some {a b : Option Txn} {u : Txn} (h : oalt a b = some u) :
    a = some u ∨ b = some u := by
  cases a with
  | none => exact Or.inr h
  | some x => exact Or.inl h

theorem citiF1_shape {s year : List Char} {t : Txn} (h : citiF1 s year = some t) :
    CitiShape year t := by
  unfold citiF1 at h
  cases hm : matchDateMDWs s with
  | none => simp only [hm] at h; exact absurd h (by simp)
  | some v =>
    obtain ⟨m1, d1, r1⟩ := v
    simp only [hm] at h
    obtain ⟨hm1, hd1⟩ := matchDateMDWs_shape hm
    cases hm2 : matchDateMDWs r1 with
    | none => simp only [hm2] at h; exact absurd h (by simp)
    | some v2 =>
      obtain ⟨m2, d2, r2⟩ := v2
      simp only [hm2] at h
      cases hsp : lazyAmtSplit r2 with
      | none => simp only [hsp] at h; exact absurd h (by simp)
      | some w =>
        obtain ⟨g3, tok, rest⟩ := w
        simp only [hsp] at h
        split_ifs at h
        simp only [Option.some.injEq] at h
        exact ⟨m1, d1, _, _, hm1, hd1, h.symm⟩

theorem citiF2_shape {s year : List Char} {t : Txn} (h : citiF2 s year = some t) :
    CitiShape year t := by
  unfold citiF2 at h
  cases hm : matchDateMDWs s with
  | none => simp only [hm] at h; exact absurd h (by simp)
  | some v =>
    obtain ⟨m1, d1, r1⟩ := v
    simp only [hm] at h
    obtain ⟨hm1, hd1⟩ := matchDateMDWs_shape hm
    cases hsp : lazyAmtSplit r1 with
    | none => simp only [hsp] at h; exact absurd h (by simp)
    | some w =>
      obtain ⟨g2, tok, rest⟩ := w
      simp only [hsp] at h
      split_ifs at h
      simp only [Option.some.injEq] at h
      exact ⟨m1, d1, _, _, hm1, hd1, h.symm⟩

theorem citiF1b_shape {s year : List Char} {t : Txn} (h : citiF1b s year = some t) :
    CitiShape year t := by
  unfold citiF1b at h
  cases hm : matchDateMDWs s with
  | none => simp only [hm] at h; exact absurd h (by simp)
  | some v =>
    obtain ⟨m1, d1, r1⟩ := v
    simp only [hm] at h
    obtain ⟨hm1, hd1⟩ := matchDateMDWs_shape hm
    cases hm2 : matchDateMDWs r1 with
    | none => simp only [hm2] at h; exact absurd h (by simp)
    | some v2 =>
      obtain ⟨m2, d2, r2⟩ := v2
      simp only [hm2] at h
      cases hat : matchAmountTok r2 with
      | none => simp only [hat] at h; exact absurd h (by simp)
      | some w =>
        obtain ⟨tok, rest⟩ := w
        simp only [hat] at h
        split_ifs at h
        simp only [Option.some.injEq] at h
        exact ⟨m1, d1, _, _, hm1, hd1, h.symm⟩

theorem citiF2p_shape {s year : List Char} {t : Txn} (h : citiF2p s year = some t) :
    CitiShape year t := by
  unfold citiF2p at h
  cases hm : matchDateMDWs s with
  | none => simp only [hm] at h; exact absurd h (by simp)
  | some v =>
    obtain ⟨m1, d1, r1⟩ := v
    simp only [hm] at h
    obtain ⟨hm1, hd1⟩ := matchDateMDWs_shape hm
    cases hat : matchAmountTok r1 with
    | none => simp only [hat] at h; exact absurd h (by simp)
    | some w =>
      obtain ⟨tok, rest⟩ := w
      simp only [hat] at h
      simp only [Option.some.injEq] at h
      exact ⟨m1, d1, _, _, hm1, hd1, h.symm⟩

theorem parseCiti_found_shape {line year : List Char} {t : Txn}
    (h : parseCitiTransactionLine line year = .found t) :
    CitiShape year t := by
  simp only [parseCitiTransactionLine] at h
  cases hc : oalt (citiF1 (pyStrip line) year)
      (oalt (citiF2 (pyStrip line) year)
        (oalt (citiF1b (pyStrip line) year) (citiF2p (pyStrip line) year))) with
  | none =>
    simp only [hc] at h
    cases hm : matchDateMDWs (pyStrip line) with
    | none => simp only [hm] at h; exact absurd h (by simp)
    | some v =>
      obtain ⟨a, b, r⟩ := v
      simp only [hm] at h
      split_ifs at h
  | some u =>
    simp only [hc, CitiParseRes.found.injEq] at h
    subst h
    rcases oalt_eq_some hc with h1 | hr
    · exact citiF1_shape h1
    rcases oalt_eq_some hr with h2 | hr2
    · exact citiF2_shape h2
    rcases oalt_eq_some hr2 with h3 | h4
    · exact citiF1b_shape h3
    · exact citiF2p_shape h4

theorem citiCardholder_out (name : List Char) (lines : List (List Char)) (i : Nat)
    (line : List Char) (st : CitiSt) :
    (citiCardholder name lines i line st).out = st.out := by
  simp only [citiCardholder]
  split_ifs <;> rfl

theorem citiPesoBlock_ok (year : List Char) (sm : Nat) (tok : List Char) (st : CitiSt)
    (h : ∀ t ∈ st.out, CitiTxnOk year sm t) :
    ∀ t ∈ (citiPesoBlock year sm tok st).out, CitiTxnOk year sm t := by
  intro t ht
  unfold citiPesoBlock at ht
  by_cases hc : st.pending.isSome = true ∧ ¬st.inPay = true
  · rw [if_pos hc] at ht
    cases hp : st.pending with
    | none => simp only [hp] at ht; exact h t ht
    | some pd =>
      simp only [hp] at ht
      cases hmd : matchDateMDWs pd with
      | none => simp only [hmd] at ht; exact h t ht
      | some v =>
        obtain ⟨mm, dd, g2⟩ := v
        simp only [hmd] at ht
        rcases List.mem_append.mp ht with ht | ht
        · exact h t ht
        · obtain ⟨hm1, hd1⟩ := matchDateMDWs_shape hmd
          rw [List.mem_singleton] at ht
          exact ⟨_, ⟨mm, dd, _, _, hm1, hd1, rfl⟩, ht⟩
  · rw [if_neg hc] at ht
    exact h t ht

theorem citiDateOnlyBlock_out {lines : List (List Char)} {i : Nat}
    {stripped : List Char} {st st' : CitiSt}
    (h : citiDateOnlyBlock lines i stripped st = some st') : st'.out = st.out := by
  unfold citiDateOnlyBlock at h
  cases hmd : matchDateOptRest stripped with
  | none => simp only [hmd] at h; exact absurd h (by simp)
  | some v =>
    obtain ⟨mm, dd, er⟩ := v
    simp only [hmd] at h
    split_ifs at h
    all_goals simp only [Option.some.injEq] at h
    all_goals subst h
    all_goals rfl

theorem citiDescOnlyBlock_out {lines : List (List Char)} {i : Nat}
    {stripped : List Char} {st st' : CitiSt}
    (h : citiDescOnlyBlock lines i stripped st = some st') : st'.out = st.out := by
  simp only [citiDescOnlyBlock] at h
  split_ifs at h
  all_goals try (simp only [Option.some.injEq] at h; subst h; rfl)
  all_goals
    cases hmd : matchDateMD (pyStrip (lineAt lines (i + 1))) with
    | none => simp only [hmd] at h; exact Option.noConfusion h
    | some v =>
      obtain ⟨a, b, c⟩ := v
      simp only [hmd, Option.some.injEq] at h
      subst h; rfl

theorem citiPendingAmtBlock_ok {year : List Char} {sm : Nat}
    {stripped : List Char} {st st' : CitiSt}
    (heq : citiPendingAmtBlock year sm stripped st = some st')
    (h : ∀ t ∈ st.out, CitiTxnOk year sm t) :
    ∀ t ∈ st'.out, CitiTxnOk year sm t := by
  intro t ht
  unfold citiPendingAmtBlock at heq
  cases hp : st.pending with
  | none => simp only [hp] at heq; exact absurd heq (by simp)
  | some pd =>
    simp only [hp] at heq
    cases hmd : matchDateMDWs stripped with
    | none => simp only [hmd] at heq; exact absurd heq (by simp)
    | some v =>
      obtain ⟨mm, dd, r⟩ := v
      simp only [hmd] at heq
      split_ifs at heq
      cases hat : matchAmountTok r with
      | none => simp only [hat] at heq; exact absurd heq (by simp)
      | some w =>
        obtain ⟨tok, rest⟩ := w
        simp only [hat, Option.some.injEq] at heq
        subst heq
        rcases List.mem_append.mp ht with ht | ht
        · exact h t ht
        · obtain ⟨hm1, hd1⟩ := matchDateMDWs_shape hmd
          rw [List.mem_singleton] at ht
          exact ⟨_, ⟨mm, dd, _, _, hm1, hd1, rfl⟩, ht⟩

theorem citiParseBlock_ok (year : List Char) (sm : Nat) (lines : List (List Char))
    (i : Nat) (line stripped : List Char) (st : CitiSt)
    (h : ∀ t ∈ st.out, CitiTxnOk year sm t) :
    ∀ t ∈ (citiParseBlock year sm lines i line stripped st).out, CitiTxnOk year sm t := by
  intro t ht
  unfold citiParseBlock at ht
  cases hp : parseCitiTransactionLine line year with
  | fragment =>
    simp only [hp] at ht
    split_ifs at ht <;> exact h t ht
  | nomatched => simp only [hp] at ht; exact h t ht
  | found u =>
    simp only [hp] at ht
    have hs : CitiShape year u := parseCiti_found_shape hp
    rcases List.mem_append.mp ht with ht | ht
    · exact h t ht
    · rw [List.mem_singleton] at ht
      refine ⟨_, ?_, ht⟩
      by_cases hd : u.descr = "PENDING_DESCRIPTION".toList
      · rw [if_pos hd]
        cases hpend : st.pending with
        | some pd =>
          cases hmd : matchDateMDWs pd with
          | some v =>
            obtain ⟨a, b, g⟩ := v
            simp only [hmd]
            exact hs.descr_update _
          | none =>
            simp only [hmd]
            exact hs.descr_update _
        | none =>
          cases hf : (List.range' (i - 3) (i - (i - 3))).find?
              (fun j => citiPrevLineOk (pyStrip (lineAt lines j))) with
          | some j =>
            simp only [hf]
            exact hs.descr_update _
          | none =>
            simp only [hf]
            exact hs
      · rw [if_neg hd]
        exact hs

theorem citiStepAt_ok (year : List Char) (sm : Nat) (lines : List (List Char))
    (i : Nat) (st : CitiSt)
    (h : ∀ t ∈ st.out, CitiTxnOk year sm t) :
    ∀ t ∈ (citiStepAt year sm lines i st).out, CitiTxnOk year sm t := by
  simp only [citiStepAt]
  by_cases h1 : st.skipNext = true
  · rw [if_pos h1]; exact h
  rw [if_neg h1]
  by_cases h2 : containsSub "MANUEL SALAS".toList (lineAt lines i) ∧
      ¬containsSub "Card ending in".toList (lineAt lines i) = true
  · rw [if_pos h2, citiCardholder_out]; exact h
  rw [if_neg h2]
  by_cases h3 : containsSub "REYNA VARELA".toList (lineAt lines i) ∧
      ¬containsSub "Card ending in".toList (lineAt lines i) = true
  · rw [if_pos h3, citiCardholder_out]; exact h
  rw [if_neg h3]
  cases hpm : pesoAmtMatch (pyStrip (lineAt lines i)) with
  | some tok => exact citiPesoBlock_ok year sm tok st h
  | none =>
    by_cases h4 : containsSub "Payments, Credits and Adjustments".toList (lineAt lines i) = true
    · rw [if_pos h4]; exact h
    rw [if_neg h4]
    by_cases h5 : citiSecStartCond (lineAt lines i) (pyStrip (lineAt lines i)) st = true
    · rw [if_pos h5]; exact h
    rw [if_neg h5]
    by_cases h6 : citiStopCond (pyStrip (lineAt lines i)) = true
    · rw [if_pos h6]; exact h
    rw [if_neg h6]
    by_cases h7 : citiShouldSkipHeader lines i (lineAt lines i) (pyStrip (lineAt lines i)) = true
    · rw [if_pos h7]; exact h
    rw [if_neg h7]
    cases hdo : citiDateOnlyBlock lines i (pyStrip (lineAt lines i)) st with
    | some st' =>
      intro t ht
      rw [citiDateOnlyBlock_out hdo] at ht
      exact h t ht
    | none =>
      by_cases h8 : ¬st.inSec = true
      · rw [if_pos h8]; exact h
      rw [if_neg h8]
      cases hdesc : citiDescOnlyBlock lines i (pyStrip (lineAt lines i)) st with
      | some st' =>
        intro t ht
        rw [citiDescOnlyBlock_out hdesc] at ht
        exact h t ht
      | none =>
        cases hpa : citiPendingAmtBlock year sm (pyStrip (lineAt lines i)) st with
        | some st' => exact citiPendingAmtBlock_ok hpa h
        | none => exact citiParseBlock_ok year sm lines i _ _ st h

theorem citiPageGo_ok (year : List Char) (sm : Nat) (lines : List (List Char))
    (fuel : Nat) : ∀ (i : Nat) (st : CitiSt),
    (∀ t ∈ st.out, CitiTxnOk year sm t) →
    ∀ t ∈ (citiPageGo year sm lines fuel i st).out, CitiTxnOk year sm t := by
  induction fuel with
  | zero => intro i st h; exact h
  | succ n ih =>
    intro i st h
    unfold citiPageGo
    by_cases hi : i < lines.length
    · rw [if_pos hi]
      exact ih (i + 1) _ (citiStepAt_ok year sm lines i st h)
    · rw [if_neg hi]; exact h

theorem citiPage_ok (year : List Char) (sm : Nat) (st : CitiSt) (page : List Char)
    (h : ∀ t ∈ st.out, CitiTxnOk year sm t) :
    ∀ t ∈ (citiPage year sm st page).out, CitiTxnOk year sm t :=
  citiPageGo_ok year sm (splitNL page) (splitNL page).length 0 st h

theorem citiFold_ok (year : List Char) (sm : Nat) (ps : List (List Char)) :
    ∀ (st : CitiSt), (∀ t ∈ st.out, CitiTxnOk year sm t) →
    ∀ t ∈ (ps.foldl (citiPage year sm) st).out, CitiTxnOk year sm t := by
  induction ps with
  | nil => intro st h; exact h
  | cons p ps ih =>
    intro st h
    exact ih _ (citiPage_ok year sm st p h)

theorem citiTxns_ok (filename : List Char) (pages : List (List Char)) :
    ∀ t ∈ citiTxns filename pages,
      CitiTxnOk (yearOfFilename filename) (citiStatementMonthNum filename) t := by
  unfold citiTxns
  exact citiFold_ok _ _ _ citiInit (by intro t ht; exact absurd ht (by simp [citiInit]))

/-- C1: for every input document and every one of the four loaders, each
row of a successful load has exactly one of the Debit and Credit fields
set, to a non-negative amount, and the other null. -/
theorem c1_debit_credit_exclusive (filename : List Char) (pages : List (List Char))
    (rows : List Row)
    (h : bmxLoad filename pages = .ok rows ∨ chaseLoad filename pages = .ok rows ∨
         citiLoad filename pages = .ok rows ∨ wfLoad filename pages = .ok rows) :
    ∀ r ∈ rows, rowOkB r = true := by
  intro r hr
  rcases h with h | h | h | h
  · simp only [bmxLoad] at h
    cases hbt : bmxTxns filename pages with
    | error e => rw [hbt] at h; exact absurd h (by simp)
    | ok all =>
      simp only [hbt] at h
      split_ifs at h with he
      · rw [Except.ok.injEq] at h; subst h; exact absurd hr (by simp)
      · rw [Except.ok.injEq] at h; subst h
        obtain ⟨t, ht, rfl⟩ := List.mem_map.mp (mem_sortByDate.mp hr)
        exact toRow_ok false (bmxTxns_ok hbt t ht).1
  · simp only [chaseLoad] at h
    split_ifs at h with he
    rw [Except.ok.injEq] at h; subst h
    obtain ⟨t, ht, rfl⟩ := List.mem_map.mp (mem_sortByDate.mp hr)
    exact toRow_ok true (chaseTxns_ok t ht).1
  · simp only [citiLoad] at h
    split_ifs at h with he
    rw [Except.ok.injEq] at h; subst h
    obtain ⟨t, ht, rfl⟩ := List.mem_map.mp (mem_sortByDate.mp hr)
    exact toRow_ok true (citiTxns_ok filename pages t ht).xor
  · simp only [wfLoad] at h
    split_ifs at h with he
    rw [Except.ok.injEq] at h; subst h
    obtain ⟨t, ht, rfl⟩ := List.mem_map.mp hr
    exact toRow_ok true (wfTxns_ok t ht).1

/-! ## Sortedness and stability of the modelled `sort_values` -/

theorem pairwise_insertByKey {x : Row} {l : List Row}
    (h : l.Pairwise (fun a b => rowKey a ≤ rowKey b)) :
    (insertByKey x l).Pairwise (fun a b => rowKey a ≤ rowKey b) := by
  induction l with
  | nil => simp [insertByKey]
  | cons y ys ih =>
    rw [List.pairwise_cons] at h
    obtain ⟨hy, hys⟩ := h
    simp only [insertByKey]
    split_ifs with hk
    · rw [List.pairwise_cons]
      refine ⟨?_, List.pairwise_cons.mpr ⟨hy, hys⟩⟩
      intro z hz
      rcases List.mem_cons.mp hz with rfl | hz
      · exact hk
      · exact le_trans hk (hy z hz)
    · rw [List.pairwise_cons]
      refine ⟨?_, ih hys⟩
      intro z hz
      rcases mem_insertByKey.mp hz with rfl | hz
      · exact le_of_not_le hk
      · exact hy z hz

theorem pairwise_sortByDate (l : List Row) :
    (sortByDate l).Pairwise (fun a b => rowKey a ≤ rowKey b) := by
  induction l with
  | nil => simp [sortByDate]
  | cons x xs ih => exact pairwise_insertByKey ih

/-- Stability of the modelled sort: inserting a row places it before
every row of equal key (rows of strictly smaller key are passed over),
so the key-`k` sublist keeps the incoming row first. -/
theorem filter_insertByKey (k : Nat) (x : Row) (l : List Row) :
    (insertByKey x l).filter (fun r => rowKey r == k) =
      (x :: l).filter (fun r => rowKey r == k) := by
  induction l with
  | nil => rfl
  | cons y ys ih =>
    simp only [insertByKey]
    split_ifs with hk
    · rfl
    · have hlt : rowKey y < rowKey x := not_le.mp hk
      rw [List.filter_cons, ih]
      by_cases hx : (rowKey x == k) = true
      · have hyk : (rowKey y == k) = false := by
          rw [beq_iff_eq] at hx
          exact beq_eq_false_iff_ne.mpr (by omega)
        simp [hx, hyk]
      · have hx' : (rowKey x == k) = false := by
          rwa [Bool.not_eq_true] at hx
        simp [hx', List.filter_cons]

theorem filter_sortByDate (k : Nat) (l : List Row) :
    (sortByDate l).filter (fun r => rowKey r == k) =
      l.filter (fun r => rowKey r == k) := by
  induction l with
  | nil => rfl
  | cons x xs ih =>
    simp only [sortByDate]
    rw [filter_insertByKey, List.filter_cons, List.filter_cons, ih]

/-! ## The year-rewrite of `citiAdjustYear` on well-shaped date strings -/

theorem isDigitC_ne_slash {c : Char} (h : isDigitC c = true) : c ≠ '/' := by
  intro hc; subst hc; exact absurd h (by decide)

theorem replaceAllF_cons_nomatch {P new : List Char} {c : Char} {t : List Char} (f : Nat)
    (h : P.isPrefixOf (c :: t) = false) :
    replaceAllF P new (f + 1) (c :: t) = c :: replaceAllF P new f t := by
  simp only [replaceAllF]
  rw [if_neg]
  intro hc
  rw [h] at hc
  exact absurd hc.2 (by simp)

theorem replaceAllF_digits {Q new : List Char} (p : List Char) (hp : p.all isDigitC = true)
    (f : Nat) (rest : List Char) :
    replaceAllF ('/' :: Q) new (p.length + f) (p ++ rest) =
      p ++ replaceAllF ('/' :: Q) new f rest := by
  induction p with
  | nil => simp
  | cons c cs ih =>
    simp only [List.all_cons, Bool.and_eq_true] at hp
    have hc : (('/' : Char) == c) = false :=
      beq_eq_false_iff_ne.mpr (fun he => isDigitC_ne_slash hp.1 he.symm)
    have hpre : (('/' :: Q).isPrefixOf (c :: (cs ++ rest))) = false := by
      simp [List.isPrefixOf, hc]
    rw [List.cons_append,
        show (c :: cs).length + f = (cs.length + f) + 1 by simp [Nat.succ_add],
        replaceAllF_cons_nomatch _ hpre, ih hp.2]
    rfl

theorem splitOnChar_append_digits {p : List Char} (hp : p.all isDigitC = true)
    (rest : List Char) :
    splitOnChar '/' (p ++ '/' :: rest) = p :: splitOnChar '/' rest := by
  induction p with
  | nil => simp [splitOnChar]
  | cons c cs ih =>
    simp only [List.all_cons, Bool.and_eq_true] at hp
    have hc : c ≠ '/' := isDigitC_ne_slash hp.1
    rw [List.cons_append]
    simp only [splitOnChar, if_neg hc, ih hp.2]

/-- In a well-shaped `mm/dd/yyyy` date string the pattern `/yyyy` occurs
exactly once, at the end, so `str.replace` rewrites only the year. -/
theorem replaceAll_dateYear {mm dd year new : List Char}
    (hm : digits12 mm) (hd : digits12 dd) (hy : yearShape year) :
    replaceAll ('/' :: year) new (mm ++ ('/' :: (dd ++ ('/' :: year)))) =
      mm ++ ('/' :: (dd ++ new)) := by
  obtain ⟨hm0, hm2, hmd⟩ := hm
  obtain ⟨hd0, hd2, hdd⟩ := hd
  obtain ⟨hy4, hyd⟩ := hy
  obtain ⟨y1, r1, rfl⟩ := List.exists_of_length_succ year hy4
  have h3 : r1.length = 3 := by simpa using hy4
  obtain ⟨y2, y3, y4, rfl⟩ := List.length_eq_three.mp h3
  simp only [List.all_cons, Bool.and_eq_true] at hyd
  have hfuel : (mm ++ ('/' :: (dd ++ ('/' :: [y1, y2, y3, y4])))).length =
      mm.length + (dd.length + 6) := by
    simp [List.length_append]
  rw [replaceAll, hfuel, replaceAllF_digits mm hmd]
  have hpre1 : (('/' :: [y1, y2, y3, y4]).isPrefixOf
      ('/' :: (dd ++ ('/' :: [y1, y2, y3, y4])))) = false := by
    rcases dd with _ | ⟨c, _ | ⟨d, _ | ⟨e, dt⟩⟩⟩
    · exact absurd rfl hd0
    · have h2 : (y2 == '/') = false :=
        beq_eq_false_iff_ne.mpr (isDigitC_ne_slash hyd.2.1)
      simp [List.isPrefixOf, h2]
    · have h3 : (y3 == '/') = false :=
        beq_eq_false_iff_ne.mpr (isDigitC_ne_slash hyd.2.2.1)
      simp [List.isPrefixOf, h3]
    · simp at hd2
  rw [show dd.length + 6 = (dd.length + 5) + 1 from rfl,
      replaceAllF_cons_nomatch _ hpre1,
      replaceAllF_digits dd hdd]
  have hmatch : replaceAllF ('/' :: [y1, y2, y3, y4]) new 5 ('/' :: [y1, y2, y3, y4]) =
      new := by
    simp only [replaceAllF]
    rw [if_pos ⟨by simp, by simp [List.isPrefixOf]⟩]
    simp [replaceAllF]
  rw [hmatch]

/-- The rollover applied to a `citiDC` record built from a matched date:
the year is replaced exactly when the month field exceeds the statement
month. -/
theorem citiAdjustYear_dateStr {mm dd year : List Char} (sm : Nat) (s : List Char) (a : ℚ)
    (hm : digits12 mm) (hd : digits12 dd) (hy : yearShape year) :
    (citiAdjustYear year sm (citiDC (mm ++ '/' :: dd ++ '/' :: year) s a)).dateStr =
      if (pyIntNat mm).getD 0 > sm then mm ++ '/' :: dd ++ '/' :: citiPrevYear year
      else mm ++ '/' :: dd ++ '/' :: year := by
  simp only [citiAdjustYear]
  have hD : (citiDC (mm ++ '/' :: dd ++ '/' :: year) s a).dateStr =
      mm ++ ('/' :: (dd ++ ('/' :: year))) := by
    show mm ++ '/' :: dd ++ '/' :: year = _
    simp [List.append_assoc]
  rw [hD, splitOnChar_append_digits hm.2.2]
  simp only [List.headD_cons]
  split_ifs with h
  · show replaceAll ('/' :: year) ('/' :: citiPrevYear year)
        (mm ++ ('/' :: (dd ++ ('/' :: year)))) = _
    rw [replaceAll_dateYear ⟨hm.1, hm.2.1, hm.2.2⟩ hd ⟨hy.1, hy.2⟩]
    simp [List.append_assoc]
  · rw [hD]
    simp [List.append_assoc]

/-- C3 counterexample: the Chase parser never applies the year
rollover.  In a `jan-2025` statement (nominal month 1, year 2025) a
deposit dated `12/23` — transaction month 12, strictly greater than the
nominal month — keeps year 2025 instead of resolving to 2024. -/
theorem c3_counterexample_chase_no_rollover :
    citiStatementMonthNum "stmt-jan-2025.pdf".toList = 1 ∧
    yearOfFilename "stmt-jan-2025.pdf".toList = "2025".toList ∧
    chaseTxns "stmt-jan-2025.pdf".toList
        ["DEPOSITS AND ADDITIONS\n12/23 Zelle payment $600.00".toList] =
      [{ dateStr := "12/23/2025".toList, descr := "Zelle payment".toList,
         debit := none, credit := some 600 }] ∧
    chaseLoad "stmt-jan-2025.pdf".toList
        ["DEPOSITS AND ADDITIONS\n12/23 Zelle payment $600.00".toList] =
      .ok [{ date := some ⟨2025, 12, 23⟩, descr := "Zelle payment".toList,
             debit := none, credit := some 600 }] := by
  refine ⟨by decide, by decide, by decide, by decide⟩

/-- C3 amended: only the Citi parser rolls the year back (exactly when
the transaction month exceeds the statement month from the filename);
Chase, Wells Fargo and Banamex always stamp the document year from the
filename onto every transaction. -/
theorem c3_year_rollover (filename : List Char) (pages : List (List Char)) :
    (∀ t ∈ chaseTxns filename pages, ∃ mm dd, digits12 mm ∧ digits12 dd ∧
        t.dateStr = mm ++ '/' :: dd ++ '/' :: yearOfFilename filename) ∧
    (∀ t ∈ wfTxns filename pages, ∃ mm dd, digits12 mm ∧ digits12 dd ∧
        t.dateStr = mm ++ '/' :: dd ++ '/' :: yearOfFilename filename) ∧
    (∀ all, bmxTxns filename pages = .ok all → ∀ t ∈ all, ∃ d m,
        t.dateStr = d ++ '/' :: m ++ '/' :: yearOfFilename filename) ∧
    (∀ t ∈ citiTxns filename pages, ∃ mm dd, digits12 mm ∧ digits12 dd ∧
        t.dateStr =
          if (pyIntNat mm).getD 0 > citiStatementMonthNum filename
          then mm ++ '/' :: dd ++ '/' :: citiPrevYear (yearOfFilename filename)
          else mm ++ '/' :: dd ++ '/' :: yearOfFilename filename) := by
  refine ⟨?_, ?_, ?_, ?_⟩
  · intro t ht
    obtain ⟨-, mm, dd, hmm, hdd, hds⟩ := chaseTxns_ok t ht
    exact ⟨mm, dd, hmm, hdd, hds⟩
  · intro t ht
    obtain ⟨-, mm, dd, hmm, hdd, hds⟩ := wfTxns_ok t ht
    exact ⟨mm, dd, hmm, hdd, hds⟩
  · intro all hall t ht
    exact (bmxTxns_ok hall t ht).2
  · intro t ht
    obtain ⟨u, ⟨mm, dd, s, a, hmm, hdd, rfl⟩, rfl⟩ := citiTxns_ok filename pages t ht
    exact ⟨mm, dd, hmm, hdd,
      citiAdjustYear_dateStr _ s a hmm hdd (yearOfFilename_shape filename)⟩

/-- C3 witness: the amended rollover policy at concrete documents — a
`12/23` Chase deposit and a `1/5` Wells Fargo purchase keep year 2025, a
`02 ENE` Banamex deposit keeps year 2025, and a `12/28` Citi purchase in
the `jan-2025` statement rolls back to 2024. -/
theorem c3_year_rollover_witness :
    (∃ mm dd, digits12 mm ∧ digits12 dd ∧
      ("12/23/2025".toList : List Char) =
        mm ++ '/' :: dd ++ '/' :: yearOfFilename "stmt-jan-2025.pdf".toList) ∧
    (∃ mm dd, digits12 mm ∧ digits12 dd ∧
      ("1/5/2025".toList : List Char) =
        mm ++ '/' :: dd ++ '/' :: yearOfFilename "stmt-jan-2025.pdf".toList) ∧
    (∃ d m, ("02/01/2025".toList : List Char) =
        d ++ '/' :: m ++ '/' :: yearOfFilename "edc-ene-2025.pdf".toList) ∧
    (∃ mm dd, digits12 mm ∧ digits12 dd ∧
      ("12/28/2024".toList : List Char) =
        if (pyIntNat mm).getD 0 > citiStatementMonthNum "stmt-jan-2025.pdf".toList
        then mm ++ '/' :: dd ++ '/' :: citiPrevYear (yearOfFilename "stmt-jan-2025.pdf".toList)
        else mm ++ '/' :: dd ++ '/' :: yearOfFilename "stmt-jan-2025.pdf".toList) := by
  refine ⟨?_, ?_, ?_, ?_⟩
  · exact (c3_year_rollover "stmt-jan-2025.pdf".toList
      ["DEPOSITS AND ADDITIONS\n12/23 Zelle payment $600.00".toList]).1
      ⟨"12/23/2025".toList, "Zelle payment".toList, none, some 600⟩ (by decide)
  · exact (c3_year_rollover "stmt-jan-2025.pdf".toList
      ["Transaction history\n1/5 Purchase A 20.00 30.00\nTotals".toList]).2.1
      ⟨"1/5/2025".toList, "Purchase A".toList, some 20, none⟩ (by decide)
  · exact (c3_year_rollover "edc-ene-2025.pdf".toList
      ["FECHA CONCEPTO RETIROS DEPOSITOS SALDO\n02 ENE PAGO RECIBIDO 185.00 1,000.00".toList]).2.2.1
      [⟨"02/01/2025".toList, "PAGO RECIBIDO".toList, none, some 10⟩] (by decide)
      ⟨"02/01/2025".toList, "PAGO RECIBIDO".toList, none, some 10⟩ (by decide)
  · exact (c3_year_rollover "stmt-jan-2025.pdf".toList
      ["Standard Purchases\n12/28 12/28 STORE PURCHASE 20.00".toList]).2.2.2
      ⟨"12/28/2024".toList, "STORE PURCHASE".toList, some 20, none⟩ (by decide)

/-- C2 counterexample: the Wells Fargo loader performs no sort, so a
document whose second transaction predates the first loads with the rows
out of date order. -/
theorem c2_counterexample_wf_unsorted :
    wfLoad "stmt-jan-2025.pdf".toList
        ["Transaction history\n1/5 Purchase A 20.00 30.00\n1/2 Purchase B 10.00 40.00\nTotals".toList] =
      .ok [{ date := some ⟨2025, 1, 5⟩, descr := "Purchase A".toList,
             debit := some 20, credit := none },
           { date := some ⟨2025, 1, 2⟩, descr := "Purchase B".toList,
             debit := some 10, credit := none }] ∧
    ¬ List.Pairwise (fun a b => rowKey a ≤ rowKey b)
        [({ date := some ⟨2025, 1, 5⟩, descr := "Purchase A".toList,
            debit := some 20, credit := none } : Row),
         { date := some ⟨2025, 1, 2⟩, descr := "Purchase B".toList,
            debit := some 10, credit := none }] := by
  constructor
  · decide
  · intro hp
    have := (List.pairwise_cons.mp hp).1 _ (List.mem_singleton.mpr rfl)
    revert this
    decide

/-- C2 amended: Banamex, Chase and Citi sort their rows ascending by
date (`NaT` last) with the modelled stable sort, so rows of equal date
key keep their pre-sort order — which is encounter order for Banamex and
Citi but credits-before-debits for Chase; Wells Fargo does not sort and
returns rows in encounter order. -/
theorem c2_sort_policy (filename : List Char) (pages : List (List Char))
    (rows : List Row) (k : Nat) :
    (∀ all, bmxTxns filename pages = .ok all → bmxLoad filename pages = .ok rows →
       rows.Pairwise (fun a b => rowKey a ≤ rowKey b) ∧
       rows.filter (fun r => rowKey r == k) =
         (all.map (toRow false)).filter (fun r => rowKey r == k)) ∧
    (chaseLoad filename pages = .ok rows →
       rows.Pairwise (fun a b => rowKey a ≤ rowKey b) ∧
       rows.filter (fun r => rowKey r == k) =
         ((chaseTxns filename pages).map (toRow true)).filter (fun r => rowKey r == k)) ∧
    (citiLoad filename pages = .ok rows →
       rows.Pairwise (fun a b => rowKey a ≤ rowKey b) ∧
       rows.filter (fun r => rowKey r == k) =
         ((citiTxns filename pages).map (toRow true)).filter (fun r => rowKey r == k)) ∧
    (wfLoad filename pages = .ok rows → rows = (wfTxns filename pages).map (toRow true)) := by
  refine ⟨?_, ?_, ?_, ?_⟩
  · intro all hbt h
    simp only [bmxLoad, hbt] at h
    split_ifs at h with he
    · rw [Except.ok.injEq] at h; subst h
      subst he
      exact ⟨List.Pairwise.nil, rfl⟩
    · rw [Except.ok.injEq] at h; subst h
      exact ⟨pairwise_sortByDate _, filter_sortByDate _ _⟩
  · intro h
    simp only [chaseLoad] at h
    split_ifs at h with he
    rw [Except.ok.injEq] at h; subst h
    exact ⟨pairwise_sortByDate _, filter_sortByDate _ _⟩
  · intro h
    simp only [citiLoad] at h
    split_ifs at h with he
    rw [Except.ok.injEq] at h; subst h
    exact ⟨pairwise_sortByDate _, filter_sortByDate _ _⟩
  · intro h
    simp only [wfLoad] at h
    split_ifs at h with he
    rw [Except.ok.injEq] at h
    exact h.symm

/-- C2 witness: the amended sort policy at concrete documents of each
format (an empty Banamex document, a one-credit Chase document, a
one-purchase Citi document and the unsorted two-row Wells Fargo
document). -/
theorem c2_sort_policy_witness :
    (bmxTxns "f".toList [] = .ok ([] : List Txn) ∧
     bmxLoad "f".toList [] = .ok ([] : List Row) ∧
     ([] : List Row).Pairwise (fun a b => rowKey a ≤ rowKey b)) ∧
    (chaseLoad "stmt-jan-2025.pdf".toList
        ["DEPOSITS AND ADDITIONS\n1/5 Zelle payment $100.00".toList] =
       .ok [{ date := some ⟨2025, 1, 5⟩, descr := "Zelle payment".toList,
              debit := none, credit := some 100 }] ∧
     List.Pairwise (fun a b => rowKey a ≤ rowKey b)
       [({ date := some ⟨2025, 1, 5⟩, descr := "Zelle payment".toList,
           debit := none, credit := some 100 } : Row)]) ∧
    (citiLoad "stmt-jan-2025.pdf".toList
        ["Standard Purchases\n1/5 1/5 STORE PURCHASE 20.00".toList] =
       .ok [{ date := some ⟨2025, 1, 5⟩, descr := "STORE PURCHASE".toList,
              debit := some 20, credit := none }] ∧
     List.Pairwise (fun a b => rowKey a ≤ rowKey b)
       [({ date := some ⟨2025, 1, 5⟩, descr := "STORE PURCHASE".toList,
           debit := some 20, credit := none } : Row)]) ∧
    ([({ date := some ⟨2025, 1, 5⟩, descr := "Purchase A".toList,
         debit := some 20, credit := none } : Row),
      { date := some ⟨2025, 1, 2⟩, descr := "Purchase B".toList,
         debit := some 10, credit := none }] =
      (wfTxns "stmt-jan-2025.pdf".toList
        ["Transaction history\n1/5 Purchase A 20.00 30.00\n1/2 Purchase B 10.00 40.00\nTotals".toList]).map
        (toRow true)) := by
  refine ⟨⟨by decide, by decide, ?_⟩, ⟨by decide, ?_⟩, ⟨by decide, ?_⟩, ?_⟩
  · exact ((c2_sort_policy "f".toList [] [] 0).1 [] (by decide) (by decide)).1
  · exact ((c2_sort_policy "stmt-jan-2025.pdf".toList
      ["DEPOSITS AND ADDITIONS\n1/5 Zelle payment $100.00".toList] _ 0).2.1 (by decide)).1
  · exact ((c2_sort_policy "stmt-jan-2025.pdf".toList
      ["Standard Purchases\n1/5 1/5 STORE PURCHASE 20.00".toList] _ 0).2.2.1 (by decide)).1
  · exact (c2_sort_policy "stmt-jan-2025.pdf".toList
      ["Transaction history\n1/5 Purchase A 20.00 30.00\n1/2 Purchase B 10.00 40.00\nTotals".toList]
      _ 0).2.2.2 (by decide)

/-- C1 witness: a one-deposit Chase document loads successfully and its
row passes the exclusivity check. -/
theorem c1_debit_credit_exclusive_witness :
    chaseLoad "stmt-jan-2025.pdf".toList
        ["DEPOSITS AND ADDITIONS\n1/5 Zelle payment $100.00".toList] =
      .ok [{ date := some ⟨2025, 1, 5⟩, descr := "Zelle payment".toList,
             debit := none, credit := some 100 }] ∧
    ∀ r ∈ [({ date := some ⟨2025, 1, 5⟩, descr := "Zelle payment".toList,
              debit := none, credit := some 100 } : Row)], rowOkB r = true :=
  ⟨by decide,
   c1_debit_credit_exclusive "stmt-jan-2025.pdf".toList
     ["DEPOSITS AND ADDITIONS\n1/5 Zelle payment $100.00".toList] _
     (Or.inr (Or.inl (by decide)))⟩

end PExp
